import Mathlib

/-!
# Verification of the Loop MCP STDIO bridge

A shallow embedding, in Lean, of the bridging engine implemented in
`loop_mcp_bridge_stdio.py`: the framed channel codec (4-byte big-endian
length prefix around a UTF-8 JSON payload), the `UnityTcpClient` TCP
client (`connect`, `disconnect`, `send_request` with its retry loop and
per-iteration lock), the upstream operation handlers (`list_tools`,
`call_tool`, `read_resource`, ...), the `stdin_reader` inbound loop and
the `run_server` orchestrator.  Effects (socket I/O, sleeping, the lock)
are made explicit: each operation is a pure function of an environment
that fixes the outcome of every dial, write and read, and returns both
its result and an account of the observable events it performed.
-/

namespace Bridge

/-! ## JSON documents

The documents exchanged by the bridge are Python values produced by
`json.loads` and consumed by `json.dumps`: `None`, booleans, numbers,
strings, lists and dicts.  Floats never appear in the bridge's own
requests and are outside this model; numbers are integers.  Strings are
carried as `List Char` (Unicode scalar values), object members as an
association list in insertion order, which is the order `json.dumps`
serializes and the order `json.loads` rebuilds. -/

inductive Json where
  | null : Json
  | bool : Bool → Json
  | num : Int → Json
  | str : List Char → Json
  | arr : List Json → Json
  | obj : List (List Char × Json) → Json
deriving Repr

mutual

/-- Structural size of a document, used only to bound parser fuel. -/
def jsize : Json → Nat
  | .null => 1
  | .bool _ => 1
  | .num _ => 1
  | .str _ => 1
  | .arr xs => 1 + jsizeList xs
  | .obj kvs => 1 + jsizeObj kvs

/-- Total size of a list of documents. -/
def jsizeList : List Json → Nat
  | [] => 0
  | x :: xs => jsize x + jsizeList xs

/-- Total size of an association list, each member counting one extra. -/
def jsizeObj : List (List Char × Json) → Nat
  | [] => 0
  | (_, v) :: kvs => 1 + jsize v + jsizeObj kvs

end

theorem jsize_pos : ∀ v : Json, 1 ≤ jsize v
  | .null | .bool _ | .num _ | .str _ => le_refl 1
  | .arr _ => Nat.le_add_right 1 _
  | .obj _ => Nat.le_add_right 1 _

/-- A `Json` literal from a Lean string. -/
def Json.jstr (s : String) : Json := .str s.data

mutual

/-- Decidable equality for documents. -/
def Json.beq : Json → Json → Bool
  | .null, .null => true
  | .bool a, .bool b => a == b
  | .num a, .num b => a == b
  | .str a, .str b => a == b
  | .arr a, .arr b => Json.beqList a b
  | .obj a, .obj b => Json.beqObj a b
  | _, _ => false

/-- Elementwise equality of document lists. -/
def Json.beqList : List Json → List Json → Bool
  | [], [] => true
  | x :: xs, y :: ys => Json.beq x y && Json.beqList xs ys
  | _, _ => false

/-- Elementwise equality of member lists. -/
def Json.beqObj : List (List Char × Json) → List (List Char × Json) → Bool
  | [], [] => true
  | (k, v) :: xs, (l, w) :: ys => k == l && Json.beq v w && Json.beqObj xs ys
  | _, _ => false

end

mutual

theorem Json.beq_refl : ∀ j : Json, Json.beq j j = true
  | .null => rfl
  | .bool b => by simp [Json.beq]
  | .num n => by simp [Json.beq]
  | .str s => by simp [Json.beq]
  | .arr xs => by simp [Json.beq, Json.beqList_refl xs]
  | .obj kvs => by simp [Json.beq, Json.beqObj_refl kvs]

theorem Json.beqList_refl : ∀ xs : List Json, Json.beqList xs xs = true
  | [] => rfl
  | x :: xs => by simp [Json.beqList, Json.beq_refl x, Json.beqList_refl xs]

theorem Json.beqObj_refl : ∀ kvs : List (List Char × Json), Json.beqObj kvs kvs = true
  | [] => rfl
  | (k, v) :: kvs => by simp [Json.beqObj, Json.beq_refl v, Json.beqObj_refl kvs]

end

mutual

theorem Json.eq_of_beq : ∀ {a b : Json}, Json.beq a b = true → a = b
  | .null, .null, _ => rfl
  | .bool a, .bool b, h => by simpa [Json.beq] using h
  | .num a, .num b, h => by simpa [Json.beq] using h
  | .str a, .str b, h => by simpa [Json.beq] using h
  | .arr a, .arr b, h => by
      simp only [Json.beq] at h
      exact congrArg Json.arr (Json.eq_of_beqList h)
  | .obj a, .obj b, h => by
      simp only [Json.beq] at h
      exact congrArg Json.obj (Json.eq_of_beqObj h)

theorem Json.eq_of_beqList : ∀ {a b : List Json}, Json.beqList a b = true → a = b
  | [], [], _ => rfl
  | x :: xs, y :: ys, h => by
      simp only [Json.beqList, Bool.and_eq_true] at h
      rw [Json.eq_of_beq h.1, Json.eq_of_beqList h.2]

theorem Json.eq_of_beqObj :
    ∀ {a b : List (List Char × Json)}, Json.beqObj a b = true → a = b
  | [], [], _ => rfl
  | (k, v) :: xs, (l, w) :: ys, h => by
      simp only [Json.beqObj, Bool.and_eq_true] at h
      have hk : k = l := by
        have := h.1.1
        simpa using this
      rw [hk, Json.eq_of_beq h.1.2, Json.eq_of_beqObj h.2]

end

instance : DecidableEq Json := fun a b =>
  if h : Json.beq a b = true then
    .isTrue (Json.eq_of_beq h)
  else
    .isFalse (fun he => h (he ▸ Json.beq_refl a))

/-! ## Serialization: a model of `json.dumps(...).encode("utf-8")`

`json.dumps` is called with its defaults: `ensure_ascii=True` (every
character outside `0x20..0x7e` is `\uXXXX`-escaped, astral characters as
a surrogate pair, with the short escapes for `\" \\ \b \f \n \r \t`),
separators `", "` and `": "`.  The output is therefore pure ASCII and
its UTF-8 encoding is the identity on character codes. -/

/-- The decimal digit character for `d < 10`. -/
def digitChar (d : Nat) : Char := Char.ofNat (48 + d)

/-- Decimal digits, fuel-based so that the kernel can evaluate it; the
fuel bounds the number of digits and is in practice `n + 1 ≥ digits`. -/
def natCharsAux : Nat → Nat → List Char
  | 0, _ => []
  | fuel + 1, n =>
      if n < 10 then [digitChar n]
      else natCharsAux fuel (n / 10) ++ [digitChar (n % 10)]

/-- Decimal digits of `n`, most significant first (no leading zeros). -/
def natChars (n : Nat) : List Char := natCharsAux (n + 1) n

theorem natCharsAux_succ (f n : Nat) :
    natCharsAux (f + 1) n =
      if n < 10 then [digitChar n] else natCharsAux f (n / 10) ++ [digitChar (n % 10)] := rfl

theorem natCharsAux_fuel (f₁ f₂ n : Nat) (h₁ : n ≤ f₁) (h₂ : n ≤ f₂) :
    natCharsAux (f₁ + 1) n = natCharsAux (f₂ + 1) n := by
  induction n using Nat.strong_induction_on generalizing f₁ f₂ with
  | _ n ih =>
    rw [natCharsAux_succ, natCharsAux_succ]
    by_cases h10 : n < 10
    · simp [h10]
    · simp only [if_neg h10]
      have hdiv : n / 10 < n := Nat.div_lt_self (by omega) (by omega)
      obtain ⟨g₁, rfl⟩ : ∃ g, f₁ = g + 1 := ⟨f₁ - 1, by omega⟩
      obtain ⟨g₂, rfl⟩ : ∃ g, f₂ = g + 1 := ⟨f₂ - 1, by omega⟩
      rw [ih _ hdiv g₁ g₂ (by omega) (by omega)]

/-- The defining equation of `natChars`, free of fuel. -/
theorem natChars_eq (n : Nat) :
    natChars n = if n < 10 then [digitChar n]
      else natChars (n / 10) ++ [digitChar (n % 10)] := by
  rw [natChars, natCharsAux_succ]
  by_cases h10 : n < 10
  · simp [h10]
  · simp only [if_neg h10]
    obtain ⟨g, rfl⟩ : ∃ g, n = g + 1 := ⟨n - 1, by omega⟩
    rw [show natChars ((g + 1) / 10)
        = natCharsAux ((g + 1) / 10 + 1) ((g + 1) / 10) from rfl,
      natCharsAux_fuel g ((g + 1) / 10) _ (by omega) (by omega)]

/-- Decimal rendering of an integer, as `json.dumps` prints Python ints. -/
def intChars (i : Int) : List Char :=
  if i < 0 then '-' :: natChars i.natAbs else natChars i.natAbs

/-- The lowercase hex digit character for `d < 16`. -/
def hexDigitChar (d : Nat) : Char :=
  if d < 10 then Char.ofNat (48 + d) else Char.ofNat (87 + d)

/-- Four lowercase hex digits of `n < 0x10000`, as in a `\uXXXX` escape. -/
def hex4 (n : Nat) : List Char :=
  [hexDigitChar (n / 4096 % 16), hexDigitChar (n / 256 % 16),
   hexDigitChar (n / 16 % 16), hexDigitChar (n % 16)]

/-- How `json.dumps` (with `ensure_ascii=True`) renders one character of
a string: printable ASCII other than `"` and `\` is literal, the seven
short escapes are used where they exist, every other character becomes
`\uXXXX`, astral characters a UTF-16 surrogate pair. -/
def escapeChar (c : Char) : List Char :=
  let n := c.toNat
  if c = '"' then ['\\', '"']
  else if c = '\\' then ['\\', '\\']
  else if n = 8 then ['\\', 'b']
  else if n = 9 then ['\\', 't']
  else if n = 10 then ['\\', 'n']
  else if n = 12 then ['\\', 'f']
  else if n = 13 then ['\\', 'r']
  else if 32 ≤ n ∧ n ≤ 126 then [c]
  else if n < 65536 then '\\' :: 'u' :: hex4 n
  else
    '\\' :: 'u' :: hex4 (55296 + (n - 65536) / 1024) ++
      ('\\' :: 'u' :: hex4 (56320 + (n - 65536) % 1024))

/-- Escape every character of a string body. -/
def escapeString : List Char → List Char
  | [] => []
  | c :: cs => escapeChar c ++ escapeString cs

/-- A JSON string literal: quote, escaped body, quote. -/
def quoteString (s : List Char) : List Char :=
  '"' :: escapeString s ++ ['"']

mutual

/-- Model of `json.dumps` at the character level (output is ASCII). -/
def dumps : Json → List Char
  | .null => "null".data
  | .bool true => "true".data
  | .bool false => "false".data
  | .num i => intChars i
  | .str s => quoteString s
  | .arr [] => ['[', ']']
  | .arr (x :: xs) => '[' :: (dumps x ++ dumpsArrTail xs) ++ [']']
  | .obj [] => ['{', '}']
  | .obj ((k, v) :: kvs) =>
      '{' :: (quoteString k ++ ':' :: ' ' :: dumps v ++ dumpsObjTail kvs) ++ ['}']

/-- Remaining array elements, each preceded by the `", "` separator. -/
def dumpsArrTail : List Json → List Char
  | [] => []
  | x :: xs => ',' :: ' ' :: dumps x ++ dumpsArrTail xs

/-- Remaining object members, each preceded by the `", "` separator. -/
def dumpsObjTail : List (List Char × Json) → List Char
  | [] => []
  | (k, v) :: kvs => ',' :: ' ' :: (quoteString k ++ ':' :: ' ' :: dumps v) ++ dumpsObjTail kvs

end

example :
    dumps (.obj [("id".data, .num 1), ("ok".data, .bool true), ("xs".data, .arr [.null, .jstr "a\"b"])])
      = "\x7b\"id\": 1, \"ok\": true, \"xs\": [null, \"a\\\"b\"]\x7d".data := by
  decide

/-! ## Parsing: a model of `json.loads`

`json.loads` on the backend leg is only ever applied to documents in the
shape `json.dumps` emits, so the model parses exactly that grammar (the
`", "` and `": "` member separators, integer numbers, the string escapes
of `ensure_ascii` output including surrogate pairs).  Any other payload
is a parse failure, as it is for `json.loads`.  The recursive functions
take fuel so that the kernel can evaluate them; one unit of fuel is
consumed per document node (`parseValue`) or per string character
(`parseStringBody`). -/

/-- Is `c` a decimal digit? -/
def isDigitCh (c : Char) : Bool := 48 ≤ c.toNat && c.toNat ≤ 57

/-- Numeric value of a hex digit (either case accepted, as `json.loads`). -/
def hexVal (c : Char) : Option Nat :=
  if 48 ≤ c.toNat ∧ c.toNat ≤ 57 then some (c.toNat - 48)
  else if 97 ≤ c.toNat ∧ c.toNat ≤ 102 then some (c.toNat - 87)
  else if 65 ≤ c.toNat ∧ c.toNat ≤ 70 then some (c.toNat - 55)
  else none

/-- Read four hex digits. -/
def parseHex4 : List Char → Option (Nat × List Char)
  | a :: b :: c :: d :: rest =>
      match hexVal a, hexVal b, hexVal c, hexVal d with
      | some x, some y, some z, some w => some (x * 4096 + y * 256 + z * 16 + w, rest)
      | _, _, _, _ => none
  | _ => none

/-- The character with code `n`, when `n` is a Unicode scalar value. -/
def mkChar (n : Nat) : Option Char :=
  if n < 55296 ∨ (57343 < n ∧ n < 1114112) then some (Char.ofNat n) else none

/-- Expect the literal characters `pat` at the head of the input. -/
def expectChars : List Char → List Char → Option (List Char)
  | [], input => some input
  | e :: es, c :: input => if c = e then expectChars es input else none
  | _ :: _, [] => none

theorem expectChars_append (es r : List Char) : expectChars es (es ++ r) = some r := by
  induction es with
  | nil => rfl
  | cons e es ih => simp [expectChars, ih]

/-- A `\uXXXX` escape, the `\u` already consumed: four hex digits, and
when they name a high surrogate, a `\uXXXX` low surrogate follows and
the pair names one astral character, as `json.loads` reads it. -/
def parseUnicodeEscape (r : List Char) : Option (Char × List Char) :=
  (parseHex4 r).bind fun p =>
    if 55296 ≤ p.1 ∧ p.1 < 56320 then
      (expectChars ['\\', 'u'] p.2).bind fun r₂ =>
        (parseHex4 r₂).bind fun q =>
          if 56320 ≤ q.1 ∧ q.1 < 57344 then
            (mkChar (65536 + (p.1 - 55296) * 1024 + (q.1 - 56320))).map fun c => (c, q.2)
          else none
    else
      (mkChar p.1).map fun c => (c, p.2)

/-- One escape sequence after the backslash, as `json.loads` reads it
(the short escapes, `\uXXXX`, and a `\uXXXX\uXXXX` surrogate pair). -/
def parseEscape (input : List Char) : Option (Char × List Char) :=
  match input with
  | '"' :: r => some ('"', r)
  | '\\' :: r => some ('\\', r)
  | '/' :: r => some ('/', r)
  | 'b' :: r => some (Char.ofNat 8, r)
  | 'f' :: r => some (Char.ofNat 12, r)
  | 'n' :: r => some (Char.ofNat 10, r)
  | 'r' :: r => some (Char.ofNat 13, r)
  | 't' :: r => some (Char.ofNat 9, r)
  | 'u' :: r => parseUnicodeEscape r
  | _ => none

/-- The body of a string literal up to its closing quote. -/
def parseStringBody : Nat → List Char → Option (List Char × List Char)
  | 0, _ => none
  | _ + 1, [] => none
  | fuel + 1, c :: rest =>
      if c = '"' then some ([], rest)
      else if c = '\\' then
        match parseEscape rest with
        | some (e, r) =>
            match parseStringBody fuel r with
            | some (s, r') => some (e :: s, r')
            | none => none
        | none => none
      else
        match parseStringBody fuel rest with
        | some (s, r') => some (c :: s, r')
        | none => none

/-- Decimal value of a digit string, most significant first. -/
def digitsVal (ds : List Char) : Nat := ds.foldl (fun a c => a * 10 + (c.toNat - 48)) 0

/-- A maximal run of decimal digits, valued. -/
def parseNatNum (input : List Char) : Option (Nat × List Char) :=
  match input.takeWhile isDigitCh with
  | [] => none
  | ds => some (digitsVal ds, input.dropWhile isDigitCh)

mutual

/-- One JSON value in the `json.dumps` grammar. -/
def parseValue : Nat → List Char → Option (Json × List Char)
  | 0, _ => none
  | _ + 1, [] => none
  | fuel + 1, c :: rest =>
      if c = 'n' then
        match expectChars "ull".data rest with
        | some r => some (.null, r)
        | none => none
      else if c = 't' then
        match expectChars "rue".data rest with
        | some r => some (.bool true, r)
        | none => none
      else if c = 'f' then
        match expectChars "alse".data rest with
        | some r => some (.bool false, r)
        | none => none
      else if c = '"' then
        match parseStringBody (rest.length + 1) rest with
        | some (s, r) => some (.str s, r)
        | none => none
      else if c = '[' then
        match rest with
        | ']' :: r => some (.arr [], r)
        | _ =>
            match parseValue fuel rest with
            | some (v, r) =>
                match parseArrTail fuel r with
                | some (vs, r') => some (.arr (v :: vs), r')
                | none => none
            | none => none
      else if c = '{' then
        match rest with
        | '}' :: r => some (.obj [], r)
        | '"' :: r =>
            match parseMember fuel r with
            | some (kv, r₁) =>
                match parseObjTail fuel r₁ with
                | some (kvs, r') => some (.obj (kv :: kvs), r')
                | none => none
            | none => none
        | _ => none
      else if c = '-' then
        match parseNatNum rest with
        | some (n, r) => some (.num (-(n : Int)), r)
        | none => none
      else if isDigitCh c then
        match parseNatNum (c :: rest) with
        | some (n, r) => some (.num (n : Int), r)
        | none => none
      else none

/-- Array elements after the first: `", "`-separated values up to `]`. -/
def parseArrTail : Nat → List Char → Option (List Json × List Char)
  | 0, _ => none
  | _ + 1, ']' :: rest => some ([], rest)
  | fuel + 1, ',' :: ' ' :: rest =>
      match parseValue fuel rest with
      | some (v, r) =>
          match parseArrTail fuel r with
          | some (vs, r') => some (v :: vs, r')
          | none => none
      | none => none
  | _ + 1, _ => none

/-- One object member, the opening quote of its key already consumed. -/
def parseMember : Nat → List Char → Option ((List Char × Json) × List Char)
  | 0, _ => none
  | fuel + 1, input =>
      match parseStringBody (input.length + 1) input with
      | some (k, r) =>
          match r with
          | ':' :: ' ' :: r₁ =>
              match parseValue fuel r₁ with
              | some (v, r₂) => some ((k, v), r₂)
              | none => none
          | _ => none
      | none => none

/-- Object members after the first: `", "`-separated members up to `}`. -/
def parseObjTail : Nat → List Char → Option (List (List Char × Json) × List Char)
  | 0, _ => none
  | _ + 1, '}' :: rest => some ([], rest)
  | fuel + 1, ',' :: ' ' :: '"' :: rest =>
      match parseMember fuel rest with
      | some (kv, r) =>
          match parseObjTail fuel r with
          | some (kvs, r') => some (kv :: kvs, r')
          | none => none
      | none => none
  | _ + 1, _ => none

end

/-- Model of `json.loads`: parse one document and require the input to
be fully consumed, failing (`none`) otherwise. -/
def loads (input : List Char) : Option Json :=
  match parseValue (input.length + 1) input with
  | some (v, []) => some v
  | _ => none

example : loads "\x7b\"a\": [1, -2, \"x\"], \"b\": null\x7d".data
    = some (.obj [("a".data, .arr [.num 1, .num (-2), .jstr "x"]), ("b".data, .null)]) := by
  decide

example : loads "not json".data = none := by decide

/-! ## The printer/parser round trip -/

theorem char_code_valid (c : Char) :
    c.toNat < 55296 ∨ (57343 < c.toNat ∧ c.toNat < 1114112) := by
  have h := c.valid
  simp [UInt32.isValidChar, Nat.isValidChar] at h
  exact h

theorem mkChar_toNat (c : Char) : mkChar c.toNat = some c := by
  rw [mkChar, if_pos (char_code_valid c), Char.ofNat_toNat]

theorem hexVal_hexDigitChar : ∀ d < 16, hexVal (hexDigitChar d) = some d := by decide

theorem parseHex4_hex4 (n : Nat) (h : n < 65536) (rest : List Char) :
    parseHex4 (hex4 n ++ rest) = some (n, rest) := by
  have h1 := hexVal_hexDigitChar (n / 4096 % 16) (Nat.mod_lt _ (by omega))
  have h2 := hexVal_hexDigitChar (n / 256 % 16) (Nat.mod_lt _ (by omega))
  have h3 := hexVal_hexDigitChar (n / 16 % 16) (Nat.mod_lt _ (by omega))
  have h4 := hexVal_hexDigitChar (n % 16) (Nat.mod_lt _ (by omega))
  simp only [hex4, List.cons_append, List.nil_append, parseHex4, h1, h2, h3, h4]
  congr 1
  congr 1
  omega

theorem parseEscape_u (r : List Char) : parseEscape ('u' :: r) = parseUnicodeEscape r := rfl

theorem toNat_ofNat_valid (n : Nat) (h : n.isValidChar) : (Char.ofNat n).toNat = n := by
  unfold Char.ofNat
  rw [dif_pos h]
  rfl

/-- How each escape produced by `escapeChar` is read back: either the
character is emitted literally (and is not a quote or backslash), or an
escape tail follows the backslash and `parseEscape` returns the
character. -/
theorem escapeChar_spec (c : Char) :
    (escapeChar c = [c] ∧ c ≠ '"' ∧ c ≠ '\\') ∨
    (∃ es, escapeChar c = '\\' :: es ∧ ∀ rest, parseEscape (es ++ rest) = some (c, rest)) := by
  rw [escapeChar]
  by_cases hq : c = '"'
  · subst hq
    exact .inr ⟨['"'], by simp, fun rest => rfl⟩
  · rw [if_neg hq]
    by_cases hb : c = '\\'
    · subst hb
      exact .inr ⟨['\\'], by simp, fun rest => rfl⟩
    · rw [if_neg hb]
      by_cases h8 : c.toNat = 8
      · rw [if_pos h8]
        refine .inr ⟨['b'], rfl, fun rest => ?_⟩
        have : c = Char.ofNat 8 := by rw [← h8, Char.ofNat_toNat]
        rw [this]; rfl
      · rw [if_neg h8]
        by_cases h9 : c.toNat = 9
        · rw [if_pos h9]
          refine .inr ⟨['t'], rfl, fun rest => ?_⟩
          have : c = Char.ofNat 9 := by rw [← h9, Char.ofNat_toNat]
          rw [this]; rfl
        · rw [if_neg h9]
          by_cases h10 : c.toNat = 10
          · rw [if_pos h10]
            refine .inr ⟨['n'], rfl, fun rest => ?_⟩
            have : c = Char.ofNat 10 := by rw [← h10, Char.ofNat_toNat]
            rw [this]; rfl
          · rw [if_neg h10]
            by_cases h12 : c.toNat = 12
            · rw [if_pos h12]
              refine .inr ⟨['f'], rfl, fun rest => ?_⟩
              have : c = Char.ofNat 12 := by rw [← h12, Char.ofNat_toNat]
              rw [this]; rfl
            · rw [if_neg h12]
              by_cases h13 : c.toNat = 13
              · rw [if_pos h13]
                refine .inr ⟨['r'], rfl, fun rest => ?_⟩
                have : c = Char.ofNat 13 := by rw [← h13, Char.ofNat_toNat]
                rw [this]; rfl
              · rw [if_neg h13]
                by_cases hascii : 32 ≤ c.toNat ∧ c.toNat ≤ 126
                · rw [if_pos hascii]
                  exact .inl ⟨rfl, hq, hb⟩
                · rw [if_neg hascii]
                  by_cases hbmp : c.toNat < 65536
                  · rw [if_pos hbmp]
                    refine .inr ⟨'u' :: hex4 c.toNat, rfl, fun rest => ?_⟩
                    have hval := char_code_valid c
                    rw [List.cons_append, parseEscape_u, parseUnicodeEscape,
                      parseHex4_hex4 c.toNat hbmp rest, Option.some_bind]
                    simp only
                    rw [if_neg (by omega), mkChar_toNat]
                    rfl
                  · rw [if_neg hbmp]
                    have hval := char_code_valid c
                    set n := c.toNat with hn
                    refine .inr ⟨'u' :: (hex4 (55296 + (n - 65536) / 1024) ++
                      '\\' :: 'u' :: hex4 (56320 + (n - 65536) % 1024)), rfl, fun rest => ?_⟩
                    have hhi : 55296 + (n - 65536) / 1024 < 65536 := by omega
                    have hlo : 56320 + (n - 65536) % 1024 < 65536 := by
                      have := Nat.mod_lt (n - 65536) (y := 1024) (by omega)
                      omega
                    rw [List.cons_append, parseEscape_u, List.append_assoc,
                      parseUnicodeEscape, parseHex4_hex4 _ hhi, Option.some_bind]
                    simp only
                    rw [if_pos (by omega)]
                    rw [show ('\\' :: 'u' :: hex4 (56320 + (n - 65536) % 1024)) ++ rest
                        = ['\\', 'u'] ++ (hex4 (56320 + (n - 65536) % 1024) ++ rest)
                      from rfl]
                    rw [expectChars_append, Option.some_bind]
                    rw [parseHex4_hex4 _ hlo, Option.some_bind]
                    simp only
                    rw [if_pos (by omega)]
                    have hcomb : 65536 + (55296 + (n - 65536) / 1024 - 55296) * 1024 +
                        (56320 + (n - 65536) % 1024 - 56320) = n := by omega
                    rw [hcomb, hn, mkChar_toNat]
                    rfl

theorem parseStringBody_cons (f : Nat) (c : Char) (rest : List Char) :
    parseStringBody (f + 1) (c :: rest) =
      if c = '"' then some ([], rest)
      else if c = '\\' then
        match parseEscape rest with
        | some (e, r) =>
            match parseStringBody f r with
            | some (s, r') => some (e :: s, r')
            | none => none
        | none => none
      else
        match parseStringBody f rest with
        | some (s, r') => some (c :: s, r')
        | none => none := rfl

/-- Reading back an escaped string body up to its closing quote. -/
theorem parseStringBody_escape (s : List Char) :
    ∀ fuel rest, s.length < fuel →
      parseStringBody fuel (escapeString s ++ '"' :: rest) = some (s, rest) := by
  induction s with
  | nil =>
      intro fuel rest h
      obtain ⟨f, rfl⟩ : ∃ f, fuel = f + 1 := ⟨fuel - 1, by omega⟩
      rw [escapeString, List.nil_append, parseStringBody_cons, if_pos rfl]
  | cons c cs ih =>
      intro fuel rest h
      obtain ⟨f, rfl⟩ : ∃ f, fuel = f + 1 := ⟨fuel - 1, by omega⟩
      rw [escapeString, List.append_assoc]
      rcases escapeChar_spec c with ⟨hlit, hq, hb⟩ | ⟨es, hes, hparse⟩
      · rw [hlit, List.cons_append, List.nil_append, parseStringBody_cons,
          if_neg hq, if_neg hb, ih f rest (by simpa using h)]
      · rw [hes, List.cons_append, parseStringBody_cons,
          if_neg (by decide : ('\\' : Char) ≠ '"'), if_pos rfl,
          hparse (escapeString cs ++ '"' :: rest)]
        simp only
        rw [ih f rest (by simpa using h)]

theorem digitChar_toNat (d : Nat) (h : d < 10) : (digitChar d).toNat = 48 + d :=
  toNat_ofNat_valid _ (Or.inl (by omega))

theorem isDigitCh_digitChar (d : Nat) (h : d < 10) : isDigitCh (digitChar d) = true := by
  simp [isDigitCh, digitChar_toNat d h]
  omega

theorem natChars_digits (n : Nat) : ∀ c ∈ natChars n, isDigitCh c = true := by
  induction n using Nat.strong_induction_on with
  | _ n ih =>
    rw [natChars_eq]
    by_cases h10 : n < 10
    · simpa [h10] using isDigitCh_digitChar n h10
    · rw [if_neg h10]
      intro c hc
      rcases List.mem_append.mp hc with h | h
      · exact ih (n / 10) (Nat.div_lt_self (by omega) (by omega)) c h
      · simp only [List.mem_singleton] at h
        subst h
        exact isDigitCh_digitChar _ (Nat.mod_lt _ (by omega))

theorem natChars_ne_nil (n : Nat) : natChars n ≠ [] := by
  rw [natChars_eq]
  by_cases h10 : n < 10
  · simp [h10]
  · simp [h10]

theorem foldl_natChars (n : Nat) : ∀ a : Nat,
    (natChars n).foldl (fun a c => a * 10 + (c.toNat - 48)) a
      = a * 10 ^ (natChars n).length + n := by
  induction n using Nat.strong_induction_on with
  | _ n ih =>
    intro a
    rw [natChars_eq]
    by_cases h10 : n < 10
    · simp [h10, List.foldl, digitChar_toNat n h10]
    · rw [if_neg h10, List.foldl_append, ih (n / 10) (Nat.div_lt_self (by omega) (by omega)) a]
      simp only [List.foldl, List.length_append, List.length_singleton,
        digitChar_toNat (n % 10) (Nat.mod_lt _ (by omega))]
      rw [pow_succ]
      have hmod : n % 10 + 10 * (n / 10) = n := Nat.mod_add_div n 10
      set K := 10 ^ (natChars (n / 10)).length
      ring_nf
      omega

theorem digitsVal_natChars (n : Nat) : digitsVal (natChars n) = n := by
  rw [digitsVal, foldl_natChars n 0]
  simp

/-- The next character, if any, does not extend a digit run. -/
def numBoundary : List Char → Bool
  | [] => true
  | c :: _ => !(isDigitCh c)

theorem takeWhile_digits_append (xs rest : List Char)
    (hxs : ∀ c ∈ xs, isDigitCh c = true) (hrest : numBoundary rest = true) :
    (xs ++ rest).takeWhile isDigitCh = xs ∧ (xs ++ rest).dropWhile isDigitCh = rest := by
  induction xs with
  | nil =>
      simp only [List.nil_append]
      cases rest with
      | nil => simp
      | cons c t =>
          simp only [numBoundary, Bool.not_eq_true'] at hrest
          simp [List.takeWhile_cons, List.dropWhile_cons, hrest]
  | cons c t ih =>
      have hc := hxs c (List.mem_cons_self c t)
      obtain ⟨h1, h2⟩ := ih (fun d hd => hxs d (List.mem_cons_of_mem _ hd))
      simp [List.takeWhile_cons, List.dropWhile_cons, hc, h1, h2]

theorem parseNatNum_natChars (n : Nat) (rest : List Char) (hrest : numBoundary rest = true) :
    parseNatNum (natChars n ++ rest) = some (n, rest) := by
  obtain ⟨h1, h2⟩ := takeWhile_digits_append (natChars n) rest (natChars_digits n) hrest
  obtain ⟨c, cs, hc⟩ := List.exists_cons_of_ne_nil (natChars_ne_nil n)
  rw [parseNatNum, h1, h2, hc]
  simp only
  rw [← hc, digitsVal_natChars]

theorem escapeString_length (s : List Char) : s.length ≤ (escapeString s).length := by
  induction s with
  | nil => simp [escapeString]
  | cons c cs ih =>
      rw [escapeString, List.length_append, List.length_cons]
      have : 1 ≤ (escapeChar c).length := by
        rcases escapeChar_spec c with ⟨hlit, _, _⟩ | ⟨es, hes, _⟩
        · simp [hlit]
        · simp [hes]
      omega

theorem isDigit_ne (c : Char) (h : isDigitCh c = true) :
    c ≠ 'n' ∧ c ≠ 't' ∧ c ≠ 'f' ∧ c ≠ '"' ∧ c ≠ '[' ∧ c ≠ '{' ∧ c ≠ '-' := by
  refine ⟨?_, ?_, ?_, ?_, ?_, ?_, ?_⟩ <;> (rintro rfl; exact absurd h (by decide))

/-- Every document's rendering starts with a character other than `]`
(and other than `}`): the element/member parsers can therefore
distinguish a closing bracket from a further value. -/
theorem dumps_head_ne (v : Json) :
    ∃ c cs, dumps v = c :: cs ∧ c ≠ ']' ∧ c ≠ '}' := by
  cases v with
  | null => exact ⟨'n', _, rfl, by decide, by decide⟩
  | bool b =>
      cases b with
      | true => exact ⟨'t', _, rfl, by decide, by decide⟩
      | false => exact ⟨'f', _, rfl, by decide, by decide⟩
  | num i =>
      show ∃ c cs, intChars i = c :: cs ∧ c ≠ ']' ∧ c ≠ '}'
      rw [intChars]
      by_cases hi : i < 0
      · exact ⟨'-', _, by rw [if_pos hi], by decide, by decide⟩
      · rw [if_neg hi]
        obtain ⟨c, cs, hc⟩ := List.exists_cons_of_ne_nil (natChars_ne_nil i.natAbs)
        have hd : isDigitCh c = true := natChars_digits _ c (hc ▸ List.mem_cons_self c cs)
        refine ⟨c, cs, hc, ?_, ?_⟩ <;> (rintro rfl; exact absurd hd (by decide))
  | str s => exact ⟨'"', _, rfl, by decide, by decide⟩
  | arr xs =>
      cases xs with
      | nil => exact ⟨'[', _, rfl, by decide, by decide⟩
      | cons x xs => exact ⟨'[', _, rfl, by decide, by decide⟩
  | obj kvs =>
      cases kvs with
      | nil => exact ⟨'{', _, rfl, by decide, by decide⟩
      | cons kv kvs =>
          obtain ⟨k, v⟩ := kv
          exact ⟨'{', _, rfl, by decide, by decide⟩

theorem parseValue_cons (f : Nat) (c : Char) (rest : List Char) :
    parseValue (f + 1) (c :: rest) =
      (if c = 'n' then
        match expectChars "ull".data rest with
        | some r => some (.null, r)
        | none => none
      else if c = 't' then
        match expectChars "rue".data rest with
        | some r => some (.bool true, r)
        | none => none
      else if c = 'f' then
        match expectChars "alse".data rest with
        | some r => some (.bool false, r)
        | none => none
      else if c = '"' then
        match parseStringBody (rest.length + 1) rest with
        | some (s, r) => some (.str s, r)
        | none => none
      else if c = '[' then
        match rest with
        | ']' :: r => some (.arr [], r)
        | _ =>
            match parseValue f rest with
            | some (v, r) =>
                match parseArrTail f r with
                | some (vs, r') => some (.arr (v :: vs), r')
                | none => none
            | none => none
      else if c = '{' then
        match rest with
        | '}' :: r => some (.obj [], r)
        | '"' :: r =>
            match parseMember f r with
            | some (kv, r₁) =>
                match parseObjTail f r₁ with
                | some (kvs, r') => some (.obj (kv :: kvs), r')
                | none => none
            | none => none
        | _ => none
      else if c = '-' then
        match parseNatNum rest with
        | some (n, r) => some (.num (-(n : Int)), r)
        | none => none
      else if isDigitCh c then
        match parseNatNum (c :: rest) with
        | some (n, r) => some (.num (n : Int), r)
        | none => none
      else none) := rfl

theorem parseArrTail_rb (f : Nat) (rest : List Char) :
    parseArrTail (f + 1) (']' :: rest) = some ([], rest) := rfl

theorem parseArrTail_comma (f : Nat) (rest : List Char) :
    parseArrTail (f + 1) (',' :: ' ' :: rest) =
      match parseValue f rest with
      | some (v, r) =>
          match parseArrTail f r with
          | some (vs, r') => some (v :: vs, r')
          | none => none
      | none => none := rfl

theorem parseObjTail_rb (f : Nat) (rest : List Char) :
    parseObjTail (f + 1) ('}' :: rest) = some ([], rest) := rfl

theorem parseObjTail_comma (f : Nat) (rest : List Char) :
    parseObjTail (f + 1) (',' :: ' ' :: '"' :: rest) =
      match parseMember f rest with
      | some (kv, r) =>
          match parseObjTail f r with
          | some (kvs, r') => some (kv :: kvs, r')
          | none => none
      | none => none := rfl

theorem parseMember_succ (f : Nat) (input : List Char) :
    parseMember (f + 1) input =
      match parseStringBody (input.length + 1) input with
      | some (k, r) =>
          match r with
          | ':' :: ' ' :: r₁ =>
              match parseValue f r₁ with
              | some (v, r₂) => some ((k, v), r₂)
              | none => none
          | _ => none
      | none => none := rfl

theorem numBoundary_arrTail (xs : List Json) (rest : List Char) :
    numBoundary (dumpsArrTail xs ++ ']' :: rest) = true := by
  cases xs <;> rfl

theorem numBoundary_objTail (kvs : List (List Char × Json)) (rest : List Char) :
    numBoundary (dumpsObjTail kvs ++ '}' :: rest) = true := by
  cases kvs with
  | nil => rfl
  | cons kv kvs => obtain ⟨k, v⟩ := kv; rfl

/-- The central parser-completeness statement, proved by induction on
the fuel: each renderer's output, followed by a continuation that does
not extend a digit run, is read back as the rendered value with the
continuation untouched, provided the fuel covers the document size. -/
theorem parse_round : ∀ fuel : Nat,
    (∀ v (rest : List Char), jsize v ≤ fuel → numBoundary rest = true →
        parseValue fuel (dumps v ++ rest) = some (v, rest)) ∧
    (∀ xs rest, jsizeList xs + 1 ≤ fuel → numBoundary rest = true →
        parseArrTail fuel (dumpsArrTail xs ++ ']' :: rest) = some (xs, rest)) ∧
    (∀ kvs rest, jsizeObj kvs + 1 ≤ fuel → numBoundary rest = true →
        parseObjTail fuel (dumpsObjTail kvs ++ '}' :: rest) = some (kvs, rest)) ∧
    (∀ k v rest, jsize v + 1 ≤ fuel → numBoundary rest = true →
        parseMember fuel (escapeString k ++ '"' :: ':' :: ' ' :: (dumps v ++ rest))
          = some ((k, v), rest)) := by
  intro fuel
  induction fuel using Nat.strong_induction_on with
  | _ fuel ih =>
    refine ⟨?_, ?_, ?_, ?_⟩
    · intro v rest hsz hrest
      obtain ⟨f, rfl⟩ : ∃ f, fuel = f + 1 := ⟨fuel - 1, by have := jsize_pos v; omega⟩
      have IH := ih f (by omega)
      cases v with
      | null =>
          rw [show dumps .null ++ rest = 'n' :: ('u' :: 'l' :: 'l' :: rest) from rfl,
            parseValue_cons, if_pos rfl,
            show ('u' :: 'l' :: 'l' :: rest) = "ull".data ++ rest from rfl,
            expectChars_append]
      | bool b =>
          cases b with
          | false =>
              rw [show dumps (.bool false) ++ rest = 'f' :: ('a' :: 'l' :: 's' :: 'e' :: rest)
                  from rfl,
                parseValue_cons, if_neg (by decide), if_neg (by decide), if_pos rfl,
                show ('a' :: 'l' :: 's' :: 'e' :: rest) = "alse".data ++ rest from rfl,
                expectChars_append]
          | true =>
              rw [show dumps (.bool true) ++ rest = 't' :: ('r' :: 'u' :: 'e' :: rest) from rfl,
                parseValue_cons, if_neg (by decide), if_pos rfl,
                show ('r' :: 'u' :: 'e' :: rest) = "rue".data ++ rest from rfl,
                expectChars_append]
      | num i =>
          show parseValue (f + 1) (intChars i ++ rest) = some (.num i, rest)
          rw [intChars]
          by_cases hi : i < 0
          · rw [if_pos hi, List.cons_append, parseValue_cons,
              if_neg (by decide), if_neg (by decide), if_neg (by decide),
              if_neg (by decide), if_neg (by decide), if_neg (by decide), if_pos rfl,
              parseNatNum_natChars _ rest hrest]
            simp only
            have : (-(i.natAbs : Int)) = i := by omega
            rw [this]
          · rw [if_neg hi]
            obtain ⟨c, cs, hc⟩ := List.exists_cons_of_ne_nil (natChars_ne_nil i.natAbs)
            have hd : isDigitCh c = true := natChars_digits _ c (hc ▸ List.mem_cons_self c cs)
            obtain ⟨h1, h2, h3, h4, h5, h6, h7⟩ := isDigit_ne c hd
            rw [hc, List.cons_append, parseValue_cons,
              if_neg h1, if_neg h2, if_neg h3, if_neg h4, if_neg h5, if_neg h6, if_neg h7,
              if_pos hd, ← List.cons_append, ← hc, parseNatNum_natChars _ rest hrest]
            simp only
            have : ((i.natAbs : Int)) = i := by omega
            rw [this]
      | str s =>
          show parseValue (f + 1) (quoteString s ++ rest) = some (.str s, rest)
          rw [show quoteString s ++ rest = '"' :: (escapeString s ++ '"' :: rest) by
              simp [quoteString],
            parseValue_cons, if_neg (by decide), if_neg (by decide), if_neg (by decide),
            if_pos rfl,
            parseStringBody_escape s _ rest
              (by have := escapeString_length s; simp; omega)]
      | arr xs =>
          cases xs with
          | nil =>
              rw [show dumps (.arr []) ++ rest = '[' :: (']' :: rest) from rfl,
                parseValue_cons, if_neg (by decide), if_neg (by decide), if_neg (by decide),
                if_neg (by decide), if_pos rfl]
              rfl
          | cons x xs =>
              obtain ⟨c, cs, hc, hcne, _⟩ := dumps_head_ne x
              have hin : dumps (.arr (x :: xs)) ++ rest
                  = '[' :: (dumps x ++ (dumpsArrTail xs ++ ']' :: rest)) := by
                show ('[' :: (dumps x ++ dumpsArrTail xs) ++ [']']) ++ rest = _
                simp [List.append_assoc]
              rw [hin, parseValue_cons, if_neg (by decide), if_neg (by decide),
                if_neg (by decide), if_neg (by decide), if_pos rfl]
              rw [hc, List.cons_append]
              have hsz' : jsize (.arr (x :: xs)) ≤ f + 1 := hsz
              rw [jsize, jsizeList] at hsz'
              have hx := jsize_pos x
              split
              · rename_i heq
                rw [List.cons_eq_cons] at heq
                exact absurd heq.1 hcne
              · rw [← List.cons_append, ← hc,
                  IH.1 x (dumpsArrTail xs ++ ']' :: rest) (by omega)
                    (numBoundary_arrTail xs rest)]
                simp only
                rw [IH.2.1 xs rest (by omega) hrest]
      | obj kvs =>
          cases kvs with
          | nil =>
              rw [show dumps (.obj []) ++ rest = '{' :: ('}' :: rest) from rfl,
                parseValue_cons, if_neg (by decide), if_neg (by decide), if_neg (by decide),
                if_neg (by decide), if_neg (by decide), if_pos rfl]
              rfl
          | cons kv kvs =>
              obtain ⟨k, v⟩ := kv
              have hin : dumps (.obj ((k, v) :: kvs)) ++ rest
                  = '{' :: ('"' :: (escapeString k ++ '"' :: ':' :: ' ' ::
                      (dumps v ++ (dumpsObjTail kvs ++ '}' :: rest)))) := by
                show ('{' :: (quoteString k ++ ':' :: ' ' :: dumps v ++ dumpsObjTail kvs)
                    ++ ['}']) ++ rest = _
                simp [quoteString, List.append_assoc]
              rw [hin, parseValue_cons, if_neg (by decide), if_neg (by decide),
                if_neg (by decide), if_neg (by decide), if_neg (by decide), if_pos rfl]
              simp only
              have hsz' : jsize (.obj ((k, v) :: kvs)) ≤ f + 1 := hsz
              rw [jsize, jsizeObj] at hsz'
              have hv := jsize_pos v
              rw [IH.2.2.2 k v (dumpsObjTail kvs ++ '}' :: rest) (by omega)
                  (numBoundary_objTail kvs rest)]
              simp only
              rw [IH.2.2.1 kvs rest (by omega) hrest]
    · intro xs rest hsz hrest
      obtain ⟨f, rfl⟩ : ∃ f, fuel = f + 1 := ⟨fuel - 1, by omega⟩
      have IH := ih f (by omega)
      cases xs with
      | nil => exact parseArrTail_rb f rest
      | cons x xs =>
          have hin : dumpsArrTail (x :: xs) ++ ']' :: rest
              = ',' :: ' ' :: (dumps x ++ (dumpsArrTail xs ++ ']' :: rest)) := by
            rw [dumpsArrTail]
            simp [List.append_assoc]
          rw [hin, parseArrTail_comma]
          rw [jsizeList] at hsz
          have hx := jsize_pos x
          rw [IH.1 x (dumpsArrTail xs ++ ']' :: rest) (by omega)
              (numBoundary_arrTail xs rest)]
          simp only
          rw [IH.2.1 xs rest (by omega) hrest]
    · intro kvs rest hsz hrest
      obtain ⟨f, rfl⟩ : ∃ f, fuel = f + 1 := ⟨fuel - 1, by omega⟩
      have IH := ih f (by omega)
      cases kvs with
      | nil => exact parseObjTail_rb f rest
      | cons kv kvs =>
          obtain ⟨k, v⟩ := kv
          have hin : dumpsObjTail ((k, v) :: kvs) ++ '}' :: rest
              = ',' :: ' ' :: '"' :: (escapeString k ++ '"' :: ':' :: ' ' ::
                  (dumps v ++ (dumpsObjTail kvs ++ '}' :: rest))) := by
            rw [dumpsObjTail]
            simp [quoteString, List.append_assoc]
          rw [hin, parseObjTail_comma]
          rw [jsizeObj] at hsz
          have hv := jsize_pos v
          rw [IH.2.2.2 k v (dumpsObjTail kvs ++ '}' :: rest) (by omega)
              (numBoundary_objTail kvs rest)]
          simp only
          rw [IH.2.2.1 kvs rest (by omega) hrest]
    · intro k v rest hsz hrest
      obtain ⟨f, rfl⟩ : ∃ f, fuel = f + 1 := ⟨fuel - 1, by omega⟩
      have IH := ih f (by omega)
      rw [parseMember_succ,
        parseStringBody_escape k _ (':' :: ' ' :: (dumps v ++ rest))
          (by have := escapeString_length k; simp; omega)]
      simp only
      rw [IH.1 v rest (by omega) hrest]

mutual

theorem jsize_le_dumps : ∀ v : Json, jsize v ≤ (dumps v).length
  | .null => by simp [jsize, dumps]
  | .bool true => by simp [jsize, dumps]
  | .bool false => by simp [jsize, dumps]
  | .num i => by
      have h := natChars_ne_nil i.natAbs
      have hlen : 1 ≤ (natChars i.natAbs).length := by
        cases hn : natChars i.natAbs with
        | nil => exact absurd hn h
        | cons c cs => simp
      show jsize (.num i) ≤ (intChars i).length
      rw [jsize, intChars]
      by_cases hi : i < 0
      · simp [hi]
      · simp [hi]
        omega
  | .str s => by
      show 1 ≤ (quoteString s).length
      simp [quoteString]
  | .arr [] => by simp [jsize, jsizeList, dumps]
  | .arr (x :: xs) => by
      have h1 := jsize_le_dumps x
      have h2 := jsizeList_le_dumpsArrTail xs
      show 1 + (jsize x + jsizeList xs) ≤ ('[' :: (dumps x ++ dumpsArrTail xs) ++ [']']).length
      simp only [List.length_append, List.length_cons, List.length_singleton]
      omega
  | .obj [] => by simp [jsize, jsizeObj, dumps]
  | .obj ((k, v) :: kvs) => by
      have h1 := jsize_le_dumps v
      have h2 := jsizeObj_le_dumpsObjTail kvs
      show 1 + (1 + jsize v + jsizeObj kvs)
          ≤ ('{' :: (quoteString k ++ ':' :: ' ' :: dumps v ++ dumpsObjTail kvs) ++ ['}']).length
      simp only [List.length_append, List.length_cons, List.length_singleton, quoteString]
      omega

theorem jsizeList_le_dumpsArrTail : ∀ xs : List Json, jsizeList xs ≤ (dumpsArrTail xs).length
  | [] => by simp [jsizeList, dumpsArrTail]
  | x :: xs => by
      have h1 := jsize_le_dumps x
      have h2 := jsizeList_le_dumpsArrTail xs
      show jsize x + jsizeList xs ≤ (',' :: ' ' :: dumps x ++ dumpsArrTail xs).length
      simp only [List.length_append, List.length_cons]
      omega

theorem jsizeObj_le_dumpsObjTail :
    ∀ kvs : List (List Char × Json), jsizeObj kvs ≤ (dumpsObjTail kvs).length
  | [] => by simp [jsizeObj, dumpsObjTail]
  | (k, v) :: kvs => by
      have h1 := jsize_le_dumps v
      have h2 := jsizeObj_le_dumpsObjTail kvs
      show 1 + jsize v + jsizeObj kvs
          ≤ (',' :: ' ' :: (quoteString k ++ ':' :: ' ' :: dumps v) ++ dumpsObjTail kvs).length
      simp only [List.length_append, List.length_cons, quoteString]
      omega

end

/-- `json.loads` reads back exactly what `json.dumps` wrote. -/
theorem loads_dumps (v : Json) : loads (dumps v) = some v := by
  rw [loads]
  have hb : numBoundary ([] : List Char) = true := rfl
  have hs : jsize v ≤ (dumps v).length + 1 := by
    have := jsize_le_dumps v
    omega
  have h := (parse_round ((dumps v).length + 1)).1 v [] hs hb
  rw [List.append_nil] at h
  rw [h]

/-! ## The framed channel codec

`send_request` writes `struct.pack(">I", len(message)) + message` where
`message = json.dumps(request).encode("utf-8")`, and reads a reply with
`readexactly(4)`, `struct.unpack(">I", ...)`, `readexactly(n)`,
`json.loads(data.decode("utf-8"))`.  Bytes are `Nat`s below 256; since
`dumps` output is ASCII, its UTF-8 encoding is the characterwise code. -/

/-- `json.dumps(d).encode("utf-8")` (ASCII output, so code = byte). -/
def serialize (d : Json) : List Nat := (dumps d).map Char.toNat

/-- `json.loads(bs.decode("utf-8"))` on an ASCII payload. -/
def deserialize (bs : List Nat) : Option Json := loads (bs.map Char.ofNat)

/-- `struct.pack(">I", n)`: four bytes, big-endian. -/
def u32be (n : Nat) : List Nat :=
  [n / 16777216 % 256, n / 65536 % 256, n / 256 % 256, n % 256]

/-- `struct.unpack(">I", ...)` of four bytes. -/
def unpackU32 (b0 b1 b2 b3 : Nat) : Nat :=
  b0 * 16777216 + b1 * 65536 + b2 * 256 + b3

/-- `reader.readexactly(n)`: exactly `n` bytes, or a short read (`none`,
modelling `asyncio.IncompleteReadError`). -/
def readExactly (n : Nat) (bs : List Nat) : Option (List Nat × List Nat) :=
  if n ≤ bs.length then some (bs.take n, bs.drop n) else none

/-- A failed `decode`: a short read (`framing`, the transport-transient
`IncompleteReadError`) or an unparseable payload (`parse`, the
non-transport `json.JSONDecodeError`). -/
inductive DecodeError where
  | framing : DecodeError
  | parse : DecodeError
deriving DecidableEq, Repr

/-- The framed encoding of one document: 4-byte big-endian length prefix
followed by exactly that many UTF-8 JSON bytes. -/
def encode (d : Json) : List Nat := u32be (serialize d).length ++ serialize d

/-- Reading one framed document back from a byte stream. -/
def decode (bs : List Nat) : Except DecodeError Json :=
  match readExactly 4 bs with
  | none => .error .framing
  | some (hdr, rest) =>
      match hdr with
      | [b0, b1, b2, b3] =>
          match readExactly (unpackU32 b0 b1 b2 b3) rest with
          | none => .error .framing
          | some (payload, _) =>
              match deserialize payload with
              | some d => .ok d
              | none => .error .parse
      | _ => .error .framing

theorem serialize_deserialize (d : Json) : deserialize (serialize d) = some d := by
  rw [deserialize, serialize, List.map_map]
  have hmap : ∀ l : List Char, l.map (Char.ofNat ∘ Char.toNat) = l := by
    intro l
    induction l with
    | nil => rfl
    | cons c cs ih => simp [ih, Char.ofNat_toNat]
  rw [hmap, loads_dumps]

theorem readExactly_four (b0 b1 b2 b3 : Nat) (bs : List Nat) :
    readExactly 4 (b0 :: b1 :: b2 :: b3 :: bs) = some ([b0, b1, b2, b3], bs) := by
  rw [readExactly, if_pos (by simp)]
  rfl

theorem readExactly_exact (bs : List Nat) : readExactly bs.length bs = some (bs, []) := by
  rw [readExactly, if_pos (le_refl _)]
  simp

/-- C5: for every JSON-serializable document `d` (whose serialization
fits the 4-byte length prefix), decoding the framed encoding of `d` — a
4-byte unsigned big-endian length prefix followed by exactly that many
UTF-8 JSON bytes — yields a document equal to `d`:
`decode (encode d) = d`. -/
theorem frame_decode_encode (d : Json) (h : (serialize d).length < 4294967296) :
    decode (encode d) = .ok d := by
  rw [show encode d = (serialize d).length / 16777216 % 256 :: ((serialize d).length / 65536 % 256 ::
      ((serialize d).length / 256 % 256 :: ((serialize d).length % 256 :: serialize d))) from rfl,
    decode, readExactly_four]
  simp only
  rw [show unpackU32 ((serialize d).length / 16777216 % 256) ((serialize d).length / 65536 % 256)
      ((serialize d).length / 256 % 256) ((serialize d).length % 256) = (serialize d).length by
    rw [unpackU32]; omega]
  rw [readExactly_exact]
  simp only
  rw [serialize_deserialize]

/-- Witness for C5 at the document `{"a": [1, "x"], "b": null}`. -/
theorem frame_decode_encode_witness :
    (serialize (Json.obj [("a".data, .arr [.num 1, .jstr "x"]), ("b".data, .null)])).length
        < 4294967296 ∧
    decode (encode (Json.obj [("a".data, .arr [.num 1, .jstr "x"]), ("b".data, .null)]))
      = .ok (Json.obj [("a".data, .arr [.num 1, .jstr "x"]), ("b".data, .null)]) :=
  ⟨by decide, frame_decode_encode _ (by decide)⟩

/-! ## The TCP client: `UnityTcpClient`

`connect` and `send_request` are embedded as pure functions of an
environment that fixes the outcome of every socket operation: for each
dial of `asyncio.open_connection`, success or a caught
`ConnectionRefusedError`/`OSError`; for the framed exchange of each
retry-loop iteration, either an exception raised at the write, or the
bytes the socket yields to the two `readexactly` calls.  Each function
returns its Python return value together with an account of the events
it performed (attempts, sleeps, disconnects, and the lock/wire action
trace used by the concurrency analysis). -/

/-- The exception classes arising during one framed exchange, named
after the Python exceptions.  `json.JSONDecodeError`'s message depends
on the payload; it is modelled by its generic first-character form. -/
inductive Exc where
  | incompleteRead (partialLen expected : Nat) : Exc
  | connectionReset (msg : String) : Exc
  | brokenPipe (msg : String) : Exc
  | connectionRefused (msg : String) : Exc
  | osError (msg : String) : Exc
  | jsonDecodeError : Exc
  | other (msg : String) : Exc
deriving DecidableEq, Repr

/-- Membership in the tuple of the first `except` clause of
`send_request` (line 128): `(asyncio.IncompleteReadError,
ConnectionResetError, BrokenPipeError, ConnectionRefusedError,
OSError)`.  `json.JSONDecodeError` is a `ValueError`, not an `OSError`,
so it does not match and is caught by the second, generic clause. -/
def isTransportExc : Exc → Bool
  | .incompleteRead _ _ => true
  | .connectionReset _ => true
  | .brokenPipe _ => true
  | .connectionRefused _ => true
  | .osError _ => true
  | .jsonDecodeError => false
  | .other _ => false

/-- Python `str(e)` for the modelled exceptions. -/
def excMsg : Exc → String
  | .incompleteRead p e =>
      toString p ++ " bytes read on a total of " ++ toString e ++ " expected bytes"
  | .connectionReset m => m
  | .brokenPipe m => m
  | .connectionRefused m => m
  | .osError m => m
  | .jsonDecodeError => "Expecting value: line 1 column 1 (char 0)"
  | .other m => m

/-- Outcome of one `asyncio.open_connection` dial: success, or an
exception in the tuple `(ConnectionRefusedError, OSError)` caught at
line 78 — the code treats both identically, so one case suffices. -/
inductive DialOutcome where
  | ok : DialOutcome
  | err (msg : String) : DialOutcome
deriving DecidableEq, Repr

/-- What one `connect()` call did: its return value, how many dials it
made and how many inter-attempt sleeps it performed. -/
structure ConnectResult where
  success : Bool
  dialAttempts : Nat
  sleeps : Nat
deriving DecidableEq, Repr

/-- The loop `for attempt in range(retry_count)` of
`UnityTcpClient.connect`, with `rem` iterations remaining, so the
current attempt index is `rc - rem`: return `True` on the first
successful dial, otherwise sleep `retry_time` unless this was the last
attempt and continue; return `False` when the range is exhausted. -/
def connectLoop (dials : Nat → DialOutcome) (rc : Nat) : Nat → ConnectResult
  | 0 => ⟨false, 0, 0⟩
  | rem + 1 =>
      match dials (rc - (rem + 1)) with
      | .ok => ⟨true, 1, 0⟩
      | .err _ =>
          let r := connectLoop dials rc rem
          ⟨r.success, r.dialAttempts + 1, r.sleeps + (if 1 ≤ rem then 1 else 0)⟩

/-- `UnityTcpClient.connect` under the dial outcomes `dials` with
`retry_count = rc`. -/
def connect (dials : Nat → DialOutcome) (rc : Nat) : ConnectResult :=
  connectLoop dials rc rc

/-- The environment's behaviour for the framed exchange of one
retry-loop iteration: the write raises `e`, or the write succeeds and
`bs` is the byte stream the socket then yields to the reads. -/
inductive ExchangeInput where
  | raiseExc (e : Exc) : ExchangeInput
  | readBytes (bs : List Nat) : ExchangeInput
deriving Repr

/-- The environment for one iteration of the retry loop. -/
structure IterEnv where
  dials : Nat → DialOutcome
  exch : ExchangeInput

/-- What the try-block at lines 112-127 produces when it runs with a
live connection: a parsed response, or an exception. -/
inductive ExchOutcome where
  | success (resp : Json) : ExchOutcome
  | exc (e : Exc) : ExchOutcome
deriving Repr

/-- One framed exchange: write (which may raise), then
`readexactly(4)`, `struct.unpack`, `readexactly(length)` (short reads
raise `IncompleteReadError`), then `json.loads` (failure raises
`JSONDecodeError`). -/
def runExchange : ExchangeInput → ExchOutcome
  | .raiseExc e => .exc e
  | .readBytes bs =>
      match readExactly 4 bs with
      | none => .exc (.incompleteRead bs.length 4)
      | some (hdr, rest) =>
          match hdr with
          | [b0, b1, b2, b3] =>
              match readExactly (unpackU32 b0 b1 b2 b3) rest with
              | none => .exc (.incompleteRead rest.length (unpackU32 b0 b1 b2 b3))
              | some (payload, _) =>
                  match deserialize payload with
                  | some r => .success r
                  | none => .exc .jsonDecodeError
          | _ => .exc (.incompleteRead bs.length 4)

/-- Atomic events of one `send_request` call, for the concurrency
analysis: the lock acquire/release of `async with self._lock`, a whole
`connect()` call, the socket write, the socket read, the inter-retry
sleep, and returning. -/
inductive Action where
  | acquire : Action
  | release : Action
  | connectAct : Action
  | writeAct : Action
  | readAct : Action
  | sleepAct : Action
  | ret : Action
deriving DecidableEq, Repr

/-- The wire actions an exchange performs: the write, then the read
unless the write itself raised. -/
def exchActs : ExchangeInput → List Action
  | .raiseExc _ => [.writeAct]
  | .readBytes _ => [.writeAct, .readAct]

/-- Python `value.get(key)` on a parsed JSON object. -/
def jsonGet (j : Json) (key : String) : Option Json :=
  match j with
  | .obj kvs => (kvs.find? (fun kv => kv.1 == key.data)).map (·.2)
  | _ => none

/-- `request.get("id")`: the value, or `None` when absent. -/
def pyGetId (req : Json) : Json := (jsonGet req "id").getD .null

/-- The error responses built at lines 134-138 and 145-152:
`{"jsonrpc": "2.0", "id": request.get("id"), "error": {"code": code,
"message": message}}`. -/
def mkErrorResponse (req : Json) (code : Int) (msg : String) : Json :=
  .obj [("jsonrpc".data, .jstr "2.0"), ("id".data, pyGetId req),
        ("error".data, .obj [("code".data, .num code), ("message".data, .jstr msg)])]

/-- Python string interpolation of `last_error`, `None` included. -/
def pyOptStr : Option String → String
  | none => "None"
  | some s => s

/-- The `-32000` message of lines 145-152. -/
def exhaustedMsg (rc : Nat) (lastErr : Option String) : String :=
  "Failed to communicate with Unity after " ++ toString rc
    ++ " attempts. Last error: " ++ pyOptStr lastErr

/-- What one `send_request` call did: its return value, the number of
outer retry-loop iterations it consumed, its inter-retry sleeps (of the
outer loop; `connect()`-internal sleeps are accounted in
`ConnectResult`), its `disconnect()` calls, whether the reader/writer
pair is live afterwards, and its action trace. -/
structure SendResult where
  response : Json
  attemptsUsed : Nat
  sleeps : Nat
  disconnects : Nat
  connectedAfter : Bool
  actions : List Action
deriving Repr

/-- The loop `for attempt in range(retry_count)` of
`UnityTcpClient.send_request`, with `rem` iterations remaining (attempt
index `rc - rem`), `connected` the state of `self.writer and
self.reader`, `lastErr` the `last_error` local.  Each iteration holds
the lock (`async with self._lock`) around connect-or-reuse, write and
read; on a transport-class exception it disconnects and falls through
to the retry; on any other exception it returns the `-32603` response;
after the loop it returns the `-32000` response. -/
def sendLoop (req : Json) (env : Nat → IterEnv) (rc : Nat) :
    Nat → Bool → Option String → SendResult
  | 0, connected, lastErr =>
      { response := mkErrorResponse req (-32000) (exhaustedMsg rc lastErr)
        attemptsUsed := 0, sleeps := 0, disconnects := 0
        connectedAfter := connected, actions := [.ret] }
  | rem + 1, connected, lastErr =>
      let it := env (rc - (rem + 1))
      let conn :=
        if connected then (true, lastErr, ([] : List Action))
        else if (connect it.dials rc).success then (true, lastErr, [Action.connectAct])
        else (false, some "Failed to connect", [Action.connectAct])
      if conn.1 then
        match runExchange it.exch with
        | .success resp =>
            { response := resp, attemptsUsed := 1, sleeps := 0, disconnects := 0
              connectedAfter := true
              actions := Action.acquire :: conn.2.2 ++ exchActs it.exch
                ++ [Action.release, Action.ret] }
        | .exc e =>
            if isTransportExc e then
              let rest := sendLoop req env rc rem false (some (excMsg e))
              { response := rest.response
                attemptsUsed := rest.attemptsUsed + 1
                sleeps := rest.sleeps + (if 1 ≤ rem then 1 else 0)
                disconnects := rest.disconnects + 1
                connectedAfter := rest.connectedAfter
                actions := Action.acquire :: conn.2.2 ++ exchActs it.exch ++ [Action.release]
                  ++ (if 1 ≤ rem then [Action.sleepAct] else []) ++ rest.actions }
            else
              { response := mkErrorResponse req (-32603) ("Internal error: " ++ excMsg e)
                attemptsUsed := 1, sleeps := 0, disconnects := 0
                connectedAfter := true
                actions := Action.acquire :: conn.2.2 ++ exchActs it.exch
                  ++ [Action.release, Action.ret] }
      else
        let rest := sendLoop req env rc rem false conn.2.1
        { response := rest.response
          attemptsUsed := rest.attemptsUsed + 1
          sleeps := rest.sleeps + (if 1 ≤ rem then 1 else 0)
          disconnects := rest.disconnects
          connectedAfter := rest.connectedAfter
          actions := Action.acquire :: conn.2.2 ++ [Action.release]
            ++ (if 1 ≤ rem then [Action.sleepAct] else []) ++ rest.actions }

/-- `UnityTcpClient.send_request(req)` with `retry_count = rc`, started
with the reader/writer pair live (`connected₀ = true`) or not. -/
def send_request (req : Json) (env : Nat → IterEnv) (rc : Nat) (connected₀ : Bool) : SendResult :=
  sendLoop req env rc rc connected₀ none

/-! ## Connect: the retry bound (C6) -/

theorem connectLoop_dials_le (dials : Nat → DialOutcome) (rc : Nat) :
    ∀ rem, (connectLoop dials rc rem).dialAttempts ≤ rem := by
  intro rem
  induction rem with
  | zero => simp [connectLoop]
  | succ rem ih =>
      rw [connectLoop]
      cases dials (rc - (rem + 1)) with
      | ok => simp
      | err m => simpa using ih

theorem connectLoop_allfail (dials : Nat → DialOutcome) (rc : Nat) :
    ∀ rem, rem ≤ rc → (∀ i, rc - rem ≤ i → i < rc → dials i ≠ .ok) →
      connectLoop dials rc rem = ⟨false, rem, rem - 1⟩ := by
  intro rem
  induction rem with
  | zero => intro _ _; rfl
  | succ rem ih =>
      intro hle hfail
      rw [connectLoop]
      cases hd : dials (rc - (rem + 1)) with
      | ok => exact absurd hd (hfail _ (le_refl _) (by omega))
      | err m =>
          rw [ih (by omega) (fun i h1 h2 => hfail i (by omega) h2)]
          by_cases h1 : 1 ≤ rem
          · obtain ⟨r, rfl⟩ : ∃ r, rem = r + 1 := ⟨rem - 1, by omega⟩
            simp
          · have h0 : rem = 0 := by omega
            subst h0
            simp

theorem connectLoop_first_ok (dials : Nat → DialOutcome) (rc : Nat) :
    ∀ rem k, k < rem → rem ≤ rc → dials (rc - rem + k) = .ok →
      (∀ j, j < k → dials (rc - rem + j) ≠ .ok) →
      connectLoop dials rc rem = ⟨true, k + 1, k⟩ := by
  intro rem
  induction rem with
  | zero => intro k hk; omega
  | succ rem ih =>
      intro k hk hle hok hfail
      rw [connectLoop]
      cases k with
      | zero =>
          have h0 : dials (rc - (rem + 1)) = .ok := by
            rw [show rc - (rem + 1) = rc - (rem + 1) + 0 by omega]
            exact hok
          rw [h0]
      | succ k =>
          cases hd : dials (rc - (rem + 1)) with
          | ok =>
              have hne := hfail 0 (by omega)
              rw [show rc - (rem + 1) + 0 = rc - (rem + 1) by omega] at hne
              exact absurd hd hne
          | err m =>
              have hok' : dials (rc - rem + k) = .ok := by
                rw [show rc - rem + k = rc - (rem + 1) + (k + 1) by omega]
                exact hok
              rw [ih k (by omega) (by omega) hok'
                  (fun j hj => by
                    rw [show rc - rem + j = rc - (rem + 1) + (j + 1) by omega]
                    exact hfail (j + 1) (by omega))]
              have h1 : 1 ≤ rem := by omega
              simp [h1]

/-- C6: for `retryCount = rc ≥ 1`, `connect` dials at most `rc` times;
if every dial fails with a transient transport error it returns `false`
after exactly `rc` dial attempts, sleeping `retryDelay` between
consecutive attempts but not after the final one (`rc - 1` sleeps); and
it returns `true` immediately on the first successful dial (the failed
dials before it, one sleep after each). -/
theorem connect_spec (rc : Nat) (_hrc : 1 ≤ rc) (dials : Nat → DialOutcome) :
    (connect dials rc).dialAttempts ≤ rc ∧
    ((∀ i, i < rc → dials i ≠ .ok) →
      connect dials rc = ⟨false, rc, rc - 1⟩) ∧
    (∀ k, k < rc → dials k = .ok → (∀ i, i < k → dials i ≠ .ok) →
      connect dials rc = ⟨true, k + 1, k⟩) := by
  refine ⟨connectLoop_dials_le dials rc rc, ?_, ?_⟩
  · intro hfail
    exact connectLoop_allfail dials rc rc (le_refl _) (fun i h1 h2 => hfail i h2)
  · intro k hk hok hfail
    have h0 : rc - rc + k = k := by omega
    exact connectLoop_first_ok dials rc rc k hk (le_refl _) (by rw [h0]; exact hok)
      (fun j hj => by rw [show rc - rc + j = j by omega]; exact hfail j (by omega))

/-- Witness for C6: `retryCount = 2`, both dials raise
connection-refused, so `connect()` returns `false` after exactly two
attempts with one sleep between them (the scenario of the spec). -/
theorem connect_spec_witness :
    connect (fun _ => DialOutcome.err "Connection refused") 2
      = ⟨false, 2, 1⟩ :=
  (connect_spec 2 (by decide) _).2.1 (fun i _ => by simp)

/-! ## The retry loop of `send_request` (C1, C7, C3)

Unfolding lemmas, one per scenario of a single iteration. -/

theorem sendLoop_zero (req : Json) (env : Nat → IterEnv) (rc : Nat)
    (connected : Bool) (lastErr : Option String) :
    sendLoop req env rc 0 connected lastErr =
      { response := mkErrorResponse req (-32000) (exhaustedMsg rc lastErr)
        attemptsUsed := 0, sleeps := 0, disconnects := 0
        connectedAfter := connected, actions := [.ret] } := rfl

theorem sendLoop_connect_fail (req : Json) (env : Nat → IterEnv) (rc rem : Nat)
    (lastErr : Option String)
    (hc : (connect (env (rc - (rem + 1))).dials rc).success = false) :
    sendLoop req env rc (rem + 1) false lastErr =
      { response := (sendLoop req env rc rem false (some "Failed to connect")).response
        attemptsUsed := (sendLoop req env rc rem false (some "Failed to connect")).attemptsUsed + 1
        sleeps := (sendLoop req env rc rem false (some "Failed to connect")).sleeps
          + (if 1 ≤ rem then 1 else 0)
        disconnects := (sendLoop req env rc rem false (some "Failed to connect")).disconnects
        connectedAfter := (sendLoop req env rc rem false (some "Failed to connect")).connectedAfter
        actions := Action.acquire :: [Action.connectAct] ++ [Action.release]
          ++ (if 1 ≤ rem then [Action.sleepAct] else [])
          ++ (sendLoop req env rc rem false (some "Failed to connect")).actions } := by
  rw [sendLoop]
  simp [hc]

theorem sendLoop_reuse_success (req : Json) (env : Nat → IterEnv) (rc rem : Nat)
    (lastErr : Option String) (resp : Json)
    (hx : runExchange (env (rc - (rem + 1))).exch = .success resp) :
    sendLoop req env rc (rem + 1) true lastErr =
      { response := resp, attemptsUsed := 1, sleeps := 0, disconnects := 0
        connectedAfter := true
        actions := Action.acquire :: exchActs (env (rc - (rem + 1))).exch
          ++ [Action.release, Action.ret] } := by
  rw [sendLoop]
  simp [hx]

theorem sendLoop_reuse_exc_transport (req : Json) (env : Nat → IterEnv) (rc rem : Nat)
    (lastErr : Option String) (e : Exc)
    (hx : runExchange (env (rc - (rem + 1))).exch = .exc e)
    (ht : isTransportExc e = true) :
    sendLoop req env rc (rem + 1) true lastErr =
      { response := (sendLoop req env rc rem false (some (excMsg e))).response
        attemptsUsed := (sendLoop req env rc rem false (some (excMsg e))).attemptsUsed + 1
        sleeps := (sendLoop req env rc rem false (some (excMsg e))).sleeps
          + (if 1 ≤ rem then 1 else 0)
        disconnects := (sendLoop req env rc rem false (some (excMsg e))).disconnects + 1
        connectedAfter := (sendLoop req env rc rem false (some (excMsg e))).connectedAfter
        actions := Action.acquire :: exchActs (env (rc - (rem + 1))).exch ++ [Action.release]
          ++ (if 1 ≤ rem then [Action.sleepAct] else [])
          ++ (sendLoop req env rc rem false (some (excMsg e))).actions } := by
  rw [sendLoop]
  simp [hx, ht]

theorem sendLoop_reuse_exc_other (req : Json) (env : Nat → IterEnv) (rc rem : Nat)
    (lastErr : Option String) (e : Exc)
    (hx : runExchange (env (rc - (rem + 1))).exch = .exc e)
    (ht : isTransportExc e = false) :
    sendLoop req env rc (rem + 1) true lastErr =
      { response := mkErrorResponse req (-32603) ("Internal error: " ++ excMsg e)
        attemptsUsed := 1, sleeps := 0, disconnects := 0
        connectedAfter := true
        actions := Action.acquire :: exchActs (env (rc - (rem + 1))).exch
          ++ [Action.release, Action.ret] } := by
  rw [sendLoop]
  simp [hx, ht]

theorem sendLoop_connOk_exc_other (req : Json) (env : Nat → IterEnv) (rc rem : Nat)
    (lastErr : Option String) (e : Exc)
    (hc : (connect (env (rc - (rem + 1))).dials rc).success = true)
    (hx : runExchange (env (rc - (rem + 1))).exch = .exc e)
    (ht : isTransportExc e = false) :
    sendLoop req env rc (rem + 1) false lastErr =
      { response := mkErrorResponse req (-32603) ("Internal error: " ++ excMsg e)
        attemptsUsed := 1, sleeps := 0, disconnects := 0
        connectedAfter := true
        actions := Action.acquire :: Action.connectAct :: exchActs (env (rc - (rem + 1))).exch
          ++ [Action.release, Action.ret] } := by
  rw [sendLoop]
  simp [hc, hx, ht]

theorem sendLoop_connOk_success (req : Json) (env : Nat → IterEnv) (rc rem : Nat)
    (lastErr : Option String) (resp : Json)
    (hc : (connect (env (rc - (rem + 1))).dials rc).success = true)
    (hx : runExchange (env (rc - (rem + 1))).exch = .success resp) :
    sendLoop req env rc (rem + 1) false lastErr =
      { response := resp, attemptsUsed := 1, sleeps := 0, disconnects := 0
        connectedAfter := true
        actions := Action.acquire :: Action.connectAct :: exchActs (env (rc - (rem + 1))).exch
          ++ [Action.release, Action.ret] } := by
  rw [sendLoop]
  simp [hc, hx]

theorem sendLoop_connOk_exc_transport (req : Json) (env : Nat → IterEnv) (rc rem : Nat)
    (lastErr : Option String) (e : Exc)
    (hc : (connect (env (rc - (rem + 1))).dials rc).success = true)
    (hx : runExchange (env (rc - (rem + 1))).exch = .exc e)
    (ht : isTransportExc e = true) :
    sendLoop req env rc (rem + 1) false lastErr =
      { response := (sendLoop req env rc rem false (some (excMsg e))).response
        attemptsUsed := (sendLoop req env rc rem false (some (excMsg e))).attemptsUsed + 1
        sleeps := (sendLoop req env rc rem false (some (excMsg e))).sleeps
          + (if 1 ≤ rem then 1 else 0)
        disconnects := (sendLoop req env rc rem false (some (excMsg e))).disconnects + 1
        connectedAfter := (sendLoop req env rc rem false (some (excMsg e))).connectedAfter
        actions := Action.acquire :: Action.connectAct :: exchActs (env (rc - (rem + 1))).exch
          ++ [Action.release]
          ++ (if 1 ≤ rem then [Action.sleepAct] else [])
          ++ (sendLoop req env rc rem false (some (excMsg e))).actions } := by
  rw [sendLoop]
  simp [hc, hx, ht]

/-- A retry-loop iteration during which the backend is persistently
unavailable: every dial fails, and the framed exchange, were it ever
reached, would raise a transport-transient exception. -/
def transientIter (it : IterEnv) : Prop :=
  (∀ i, it.dials i ≠ .ok) ∧
  ∃ e, runExchange it.exch = .exc e ∧ isTransportExc e = true

/-- Under an all-failing environment, the loop run disconnected consumes
all its remaining iterations, sleeps between them, and ends with the
`-32000` response whose last error is the connect failure. -/
theorem sendLoop_allfail (req : Json) (env : Nat → IterEnv) (rc : Nat) :
    ∀ rem, 1 ≤ rem → rem ≤ rc →
      (∀ i, rc - rem ≤ i → i < rc → ∀ j, (env i).dials j ≠ .ok) →
      ∀ lastErr,
        (sendLoop req env rc rem false lastErr).response
            = mkErrorResponse req (-32000) (exhaustedMsg rc (some "Failed to connect")) ∧
        (sendLoop req env rc rem false lastErr).attemptsUsed = rem ∧
        (sendLoop req env rc rem false lastErr).sleeps = rem - 1 ∧
        (sendLoop req env rc rem false lastErr).disconnects = 0 ∧
        (sendLoop req env rc rem false lastErr).connectedAfter = false := by
  intro rem
  induction rem with
  | zero => omega
  | succ rem ih =>
      intro _ hle hfail lastErr
      have hc : (connect (env (rc - (rem + 1))).dials rc).success = false := by
        rw [connect, connectLoop_allfail _ _ rc (le_refl _)
          (fun i _ _ => hfail (rc - (rem + 1)) (le_refl _) (by omega) i)]
      rw [sendLoop_connect_fail req env rc rem lastErr hc]
      by_cases h1 : 1 ≤ rem
      · obtain ⟨hr, ha, hs, hd, hca⟩ :=
          ih h1 (by omega) (fun i _ hi2 j => hfail i (by omega) hi2 j)
            (some "Failed to connect")
        refine ⟨?_, ?_, ?_, ?_, ?_⟩
        · show (sendLoop req env rc rem false (some "Failed to connect")).response = _
          exact hr
        · show (sendLoop req env rc rem false (some "Failed to connect")).attemptsUsed + 1
              = rem + 1
          omega
        · show (sendLoop req env rc rem false (some "Failed to connect")).sleeps
              + (if 1 ≤ rem then 1 else 0) = rem + 1 - 1
          rw [hs, if_pos h1]
          omega
        · show (sendLoop req env rc rem false (some "Failed to connect")).disconnects = 0
          exact hd
        · show (sendLoop req env rc rem false (some "Failed to connect")).connectedAfter = false
          exact hca
      · have h0 : rem = 0 := by omega
        subst h0
        rw [sendLoop_zero]
        refine ⟨rfl, rfl, by simp, rfl, rfl⟩

/-- The last error recorded when every attempt fails: the exchange's
message when the sole iteration ran with a live connection, the connect
failure otherwise. -/
def lastTransientMsg (env : Nat → IterEnv) (rc : Nat) (connected₀ : Bool) : String :=
  if connected₀ ∧ rc = 1 then
    match runExchange (env 0).exch with
    | .exc e => excMsg e
    | .success _ => ""
  else "Failed to connect"

/-- C1: when every connection attempt and every framed exchange fails
with a transport-transient error, `send_request` returns the `-32000`
response whose message names the attempt count (`retry_count`) and the
last error, after consuming exactly `retry_count` outer attempts —
connection attempts and send attempts drawing from the one shared
budget — never more, sleeping between attempts but not after the last
(`retry_count - 1` outer sleeps). -/
theorem send_request_all_transient (req : Json) (env : Nat → IterEnv) (rc : Nat)
    (hrc : 1 ≤ rc) (connected₀ : Bool)
    (henv : ∀ i, i < rc → transientIter (env i)) :
    (send_request req env rc connected₀).response
        = mkErrorResponse req (-32000)
            (exhaustedMsg rc (some (lastTransientMsg env rc connected₀))) ∧
    (send_request req env rc connected₀).attemptsUsed = rc ∧
    (send_request req env rc connected₀).sleeps = rc - 1 := by
  obtain ⟨r, rfl⟩ : ∃ r, rc = r + 1 := ⟨rc - 1, by omega⟩
  rw [send_request]
  cases connected₀ with
  | false =>
      have h := sendLoop_allfail req env (r + 1) (r + 1) (by omega) (le_refl _)
        (fun i _ hi2 j => (henv i hi2).1 j) none
      have hmsg : lastTransientMsg env (r + 1) false = "Failed to connect" := by
        rw [lastTransientMsg, if_neg (by simp)]
      rw [hmsg]
      exact ⟨h.1, h.2.1, h.2.2.1⟩
  | true =>
      obtain ⟨e, hx, ht⟩ := (henv 0 (by omega)).2
      rw [sendLoop_reuse_exc_transport req env (r + 1) r none e
        (by rw [Nat.sub_self]; exact hx) ht]
      by_cases h1 : 1 ≤ r
      · obtain ⟨hr, ha, hs, _, _⟩ := sendLoop_allfail req env (r + 1) r h1 (by omega)
          (fun i _ hi2 j => (henv i hi2).1 j) (some (excMsg e))
        have hmsg : lastTransientMsg env (r + 1) true = "Failed to connect" := by
          rw [lastTransientMsg, if_neg (by omega)]
        rw [hmsg]
        refine ⟨?_, ?_, ?_⟩
        · show (sendLoop req env (r + 1) r false (some (excMsg e))).response = _
          exact hr
        · show (sendLoop req env (r + 1) r false (some (excMsg e))).attemptsUsed + 1 = r + 1
          omega
        · show (sendLoop req env (r + 1) r false (some (excMsg e))).sleeps
              + (if 1 ≤ r then 1 else 0) = r + 1 - 1
          rw [hs, if_pos h1]
          omega
      · have h0 : r = 0 := by omega
        subst h0
        have hmsg : lastTransientMsg env 1 true = excMsg e := by
          rw [lastTransientMsg, if_pos ⟨rfl, rfl⟩, hx]
        rw [hmsg, sendLoop_zero]
        exact ⟨rfl, rfl, rfl⟩

/-- Witness for C1: `retry_count = 2`, every dial refused, the exchange
(ran once, since the call starts connected) reset — two attempts, one
sleep, the `-32000` response. -/
theorem send_request_all_transient_witness :
    (send_request (Json.obj [("id".data, .jstr "t")])
        (fun _ => ⟨fun _ => .err "refused", .raiseExc (.connectionReset "reset")⟩) 2 true).response
        = mkErrorResponse (Json.obj [("id".data, .jstr "t")]) (-32000)
            (exhaustedMsg 2 (some (lastTransientMsg
              (fun _ => ⟨fun _ => .err "refused", .raiseExc (.connectionReset "reset")⟩) 2 true))) ∧
    (send_request (Json.obj [("id".data, .jstr "t")])
        (fun _ => ⟨fun _ => .err "refused", .raiseExc (.connectionReset "reset")⟩) 2 true).attemptsUsed
        = 2 ∧
    (send_request (Json.obj [("id".data, .jstr "t")])
        (fun _ => ⟨fun _ => .err "refused", .raiseExc (.connectionReset "reset")⟩) 2 true).sleeps
        = 2 - 1 :=
  send_request_all_transient _ _ 2 (by decide) true
    (fun i _ => ⟨fun j => by simp, ⟨.connectionReset "reset", rfl, rfl⟩⟩)

/-- C7: a non-transport exception raised during the framed exchange of
the first iteration (the call starting connected, or connecting
successfully) is not retried: `send_request` immediately returns the
`-32603` response carrying the exception's message, consuming no
further attempts, no sleeps and no disconnects. -/
theorem send_request_internal_error (req : Json) (env : Nat → IterEnv) (rc : Nat)
    (hrc : 1 ≤ rc) (e : Exc)
    (hexch : runExchange (env 0).exch = .exc e) (hnt : isTransportExc e = false) :
    (send_request req env rc true).response
        = mkErrorResponse req (-32603) ("Internal error: " ++ excMsg e) ∧
    (send_request req env rc true).attemptsUsed = 1 ∧
    (send_request req env rc true).sleeps = 0 ∧
    (send_request req env rc true).disconnects = 0 := by
  obtain ⟨r, rfl⟩ : ∃ r, rc = r + 1 := ⟨rc - 1, by omega⟩
  rw [send_request, sendLoop_reuse_exc_other req env (r + 1) r none e
    (by rw [Nat.sub_self]; exact hexch) hnt]
  exact ⟨rfl, rfl, rfl, rfl⟩

/-- Witness for C7: a `TypeError`-like exception with message `boom`
during the first exchange, `retry_count = 5`. -/
theorem send_request_internal_error_witness :
    (send_request (Json.obj [("id".data, .jstr "t")])
        (fun _ => ⟨fun _ => .ok, .raiseExc (.other "boom")⟩) 5 true).response
        = mkErrorResponse (Json.obj [("id".data, .jstr "t")]) (-32603)
            ("Internal error: " ++ excMsg (.other "boom")) ∧
    (send_request (Json.obj [("id".data, .jstr "t")])
        (fun _ => ⟨fun _ => .ok, .raiseExc (.other "boom")⟩) 5 true).attemptsUsed = 1 ∧
    (send_request (Json.obj [("id".data, .jstr "t")])
        (fun _ => ⟨fun _ => .ok, .raiseExc (.other "boom")⟩) 5 true).sleeps = 0 ∧
    (send_request (Json.obj [("id".data, .jstr "t")])
        (fun _ => ⟨fun _ => .ok, .raiseExc (.other "boom")⟩) 5 true).disconnects = 0 :=
  send_request_internal_error _ _ 5 (by decide) (.other "boom") rfl rfl

/-! ## C3: a reply frame read completely but not valid JSON -/

/-- A request used by the C3 scenario. -/
def c3req : Json :=
  .obj [("jsonrpc".data, .jstr "2.0"), ("id".data, .jstr "t"), ("method".data, .jstr "ping")]

/-- An environment whose reply frame is complete — correct 4-byte
length prefix, full payload — but whose payload `not json` is not valid
JSON.  Dials succeed. -/
def c3env : Nat → IterEnv :=
  fun _ => ⟨fun _ => .ok, .readBytes (u32be 8 ++ "not json".data.map Char.toNat)⟩

/-- C3 counterexample: on a completely-read reply frame whose payload is
not valid JSON, `send_request` does NOT treat the failure like a short
read: no `disconnect()` happens, the connection stays live, no retry is
attempted, and the call returns the `-32603` internal-error response at
once.  (`json.JSONDecodeError` is a `ValueError`, which the transport
`except` tuple of line 128 does not match.)  This contradicts the
claimed disconnect-and-retry behaviour. -/
theorem c3_counterexample :
    (send_request c3req c3env 3 true).disconnects = 0 ∧
    (send_request c3req c3env 3 true).attemptsUsed = 1 ∧
    (send_request c3req c3env 3 true).connectedAfter = true ∧
    (send_request c3req c3env 3 true).response
      = mkErrorResponse c3req (-32603) ("Internal error: " ++ excMsg .jsonDecodeError) := by
  refine ⟨by decide, by decide, by decide, by decide⟩

/-- C3 amended: when the backend's reply frame is read completely but
its payload is not valid JSON, the parse failure is treated as a
non-transport error: the connection is NOT invalidated (no
`disconnect()`, the reader/writer stay live) and the call immediately
returns the `-32603` internal-error response without consuming further
retry attempts. -/
theorem send_parse_failure_immediate (req : Json) (env : Nat → IterEnv) (rc : Nat)
    (hrc : 1 ≤ rc) (bs : List Nat)
    (_hb : (env 0).exch = .readBytes bs)
    (hparse : runExchange (env 0).exch = .exc .jsonDecodeError) :
    (send_request req env rc true).response
        = mkErrorResponse req (-32603) ("Internal error: " ++ excMsg .jsonDecodeError) ∧
    (send_request req env rc true).attemptsUsed = 1 ∧
    (send_request req env rc true).disconnects = 0 ∧
    (send_request req env rc true).connectedAfter = true := by
  obtain ⟨r, rfl⟩ : ∃ r, rc = r + 1 := ⟨rc - 1, by omega⟩
  rw [send_request, sendLoop_reuse_exc_other req env (r + 1) r none .jsonDecodeError
    (by rw [Nat.sub_self]; exact hparse) rfl]
  exact ⟨rfl, rfl, rfl, rfl⟩

/-- Witness for the amended C3 at the concrete `not json` payload. -/
theorem send_parse_failure_immediate_witness :
    (send_request c3req c3env 3 true).response
        = mkErrorResponse c3req (-32603) ("Internal error: " ++ excMsg .jsonDecodeError) ∧
    (send_request c3req c3env 3 true).attemptsUsed = 1 ∧
    (send_request c3req c3env 3 true).disconnects = 0 ∧
    (send_request c3req c3env 3 true).connectedAfter = true :=
  send_parse_failure_immediate c3req c3env 3 (by decide)
    (u32be 8 ++ "not json".data.map Char.toNat) rfl rfl

/-! ## The upstream operation handlers (C8, C10)

Each handler is a pure function of the backend `Response` it received
from `send_request`, translated from `create_server`'s nested handler
functions. -/

/-- `"error" in response`. -/
def hasError (resp : Json) : Bool := (jsonGet resp "error").isSome

/-- `response["error"]` (present whenever `hasError`). -/
def errorOf (resp : Json) : Json := (jsonGet resp "error").getD .null

/-- The elements of a JSON array (handlers iterate only over values
that are lists). -/
def jsonItems : Json → List Json
  | .arr xs => xs
  | _ => []

/-- `v.get(key, default)` for an expected-string field. A non-string
value would be passed through by Python; its exact `str()` rendering is
modelled by the JSON rendering (no claim exercises it). -/
def getStr (v : Json) (key : String) (dflt : String) : String :=
  match jsonGet v key with
  | some (.str s) => s.asString
  | some w => (dumps w).asString
  | none => dflt

/-- `v.get(key)` for an expected-string field that may be `None`. -/
def getStrOpt (v : Json) (key : String) : Option String :=
  match jsonGet v key with
  | some (.str s) => some s.asString
  | some w => some (dumps w).asString
  | none => none

/-- `error.get('message', 'Unknown error')` as an f-string renders it. -/
def getMessage (e : Json) : String := getStr e "message" "Unknown error"

/-- `types.Tool(name, description, inputSchema)`. -/
structure McpTool where
  name : String
  description : String
  inputSchema : Json
deriving DecidableEq, Repr

/-- One item of the list `call_tool` returns: `types.TextContent`,
`types.ImageContent` or `types.EmbeddedResource` (with a
`TextResourceContents`). -/
inductive McpContent where
  | text (text : String) : McpContent
  | image (data mimeType : String) : McpContent
  | resource (uri : String) (mimeType : Option String) (text : String) : McpContent
deriving DecidableEq, Repr

/-- `types.PromptArgument`. -/
structure McpPromptArgument where
  name : String
  description : Option String
  required : Bool
deriving DecidableEq, Repr

/-- `types.Prompt`. -/
structure McpPrompt where
  name : String
  description : Option String
  arguments : List McpPromptArgument
deriving DecidableEq, Repr

/-- `types.Resource`. -/
structure McpResource where
  uri : String
  name : String
  description : Option String
  mimeType : Option String
deriving DecidableEq, Repr

/-- The `list_tools` handler applied to the backend response: on error,
log and return `[]`; otherwise map `result["tools"]`. -/
def list_tools (resp : Json) : List McpTool :=
  if hasError resp then []
  else
    let result := (jsonGet resp "result").getD (.obj [])
    let tools := (jsonGet result "tools").getD (.arr [])
    (jsonItems tools).map fun tool =>
      { name := getStr tool "name" ""
        description := getStr tool "description" ""
        inputSchema := (jsonGet tool "inputSchema").getD (.obj [("type".data, .jstr "object")]) }

/-- The `list_prompts` handler applied to the backend response. -/
def list_prompts (resp : Json) : List McpPrompt :=
  if hasError resp then []
  else
    let result := (jsonGet resp "result").getD (.obj [])
    let prompts := (jsonGet result "prompts").getD (.arr [])
    (jsonItems prompts).map fun prompt =>
      { name := getStr prompt "name" ""
        description := getStrOpt prompt "description"
        arguments := (jsonItems ((jsonGet prompt "arguments").getD (.arr []))).map fun arg =>
          { name := getStr arg "name" ""
            description := getStrOpt arg "description"
            required := (jsonGet arg "required").getD (.bool false) == .bool true } }

/-- The `list_resources` handler applied to the backend response. -/
def list_resources (resp : Json) : List McpResource :=
  if hasError resp then []
  else
    let result := (jsonGet resp "result").getD (.obj [])
    let resources := (jsonGet result "resources").getD (.arr [])
    (jsonItems resources).map fun res =>
      { uri := getStr res "uri" ""
        name := getStr res "name" ""
        description := getStrOpt res "description"
        mimeType := getStrOpt res "mimeType" }

/-- The per-item mapping of `call_tool`'s content loop: a recognized
`type` (`text`, `image`, `resource`) is converted, anything else is
skipped (nothing is appended). -/
def mapContentItem (item : Json) : Option McpContent :=
  match jsonGet item "type" with
  | some (.str t) =>
      if t = "text".data then some (.text (getStr item "text" ""))
      else if t = "image".data then
        some (.image (getStr item "data" "") (getStr item "mimeType" "image/png"))
      else if t = "resource".data then
        let resource := (jsonGet item "resource").getD (.obj [])
        some (.resource (getStr resource "uri" "") (getStrOpt resource "mimeType")
          (getStr resource "text" ""))
      else none
  | _ => none

/-- Does the item's `type` name one of the three recognized kinds? -/
def recognizedType (item : Json) : Bool :=
  match jsonGet item "type" with
  | some (.str t) => t = "text".data || t = "image".data || t = "resource".data
  | _ => false

/-- The `call_tool` handler applied to the backend response: on error, a
single `"Error: ..."` text item; otherwise the mapped content, or the
`"No content returned"` text item if nothing was mapped. -/
def call_tool (resp : Json) : List McpContent :=
  if hasError resp then
    [.text ("Error: " ++ getMessage (errorOf resp))]
  else
    let result := (jsonGet resp "result").getD (.obj [])
    let content := (jsonGet result "content").getD (.arr [])
    let mcp := (jsonItems content).filterMap mapContentItem
    if mcp.isEmpty then [.text "No content returned"] else mcp

/-- The `read_resource` handler applied to the backend response: on
error the `"Error: ..."` STRING (not an empty string); otherwise the
`text` of the first element of `result["contents"]`, or `""`. -/
def read_resource (resp : Json) : String :=
  if hasError resp then "Error: " ++ getMessage (errorOf resp)
  else
    let result := (jsonGet resp "result").getD (.obj [])
    let contents := (jsonGet result "contents").getD (.arr [])
    match jsonItems contents with
    | [] => ""
    | c :: _ =>
        match jsonGet c "text" with
        | some (.str s) => s.asString
        | some w => (dumps w).asString
        | none => ""

/-- A backend error response with message `boom`, for the C8 scenario. -/
def c8resp : Json :=
  .obj [("jsonrpc".data, .jstr "2.0"), ("id".data, .jstr "r"),
        ("error".data, .obj [("code".data, .num (-32000)), ("message".data, .jstr "boom")])]

/-- C8 counterexample: on a backend error, `read_resource` does NOT
return an empty string — it returns `"Error: "` followed by the
backend's message (the error-text convention of `call_tool`, not the
claimed empty value). -/
theorem c8_counterexample :
    read_resource c8resp = "Error: boom" ∧ read_resource c8resp ≠ "" := by
  refine ⟨by decide, by decide⟩

/-- C8 amended: when `send_request` returns a `Response` containing an
error, every handler returns in-band without throwing: the listing
handlers (tools/prompts/resources) return an empty list, the tool-call
handler returns a single text item `"Error: "` followed by the
backend's message, and the resource-read handler returns the STRING
`"Error: "` followed by the backend's message (not the empty string —
the empty string is its success value when no contents come back). -/
theorem handlers_on_error (resp : Json) (he : hasError resp = true) :
    list_tools resp = [] ∧
    list_prompts resp = [] ∧
    list_resources resp = [] ∧
    call_tool resp = [.text ("Error: " ++ getMessage (errorOf resp))] ∧
    read_resource resp = "Error: " ++ getMessage (errorOf resp) := by
  refine ⟨?_, ?_, ?_, ?_, ?_⟩ <;> simp [list_tools, list_prompts, list_resources,
    call_tool, read_resource, he]

/-- Witness for the amended C8 at the `boom` error response. -/
theorem handlers_on_error_witness :
    list_tools c8resp = [] ∧
    list_prompts c8resp = [] ∧
    list_resources c8resp = [] ∧
    call_tool c8resp = [.text ("Error: " ++ getMessage (errorOf c8resp))] ∧
    read_resource c8resp = "Error: " ++ getMessage (errorOf c8resp) :=
  handlers_on_error c8resp (by decide)

/-- C10: a successful `tools/call` response whose content list is empty
or contains only items of unrecognized type (no `text`, `image` or
`resource`) yields the single text item `No content returned`, never an
empty list. -/
theorem call_tool_no_content (resp : Json) (he : hasError resp = false)
    (hall : ∀ item ∈ jsonItems ((jsonGet ((jsonGet resp "result").getD (.obj []))
        "content").getD (.arr [])), recognizedType item = false) :
    call_tool resp = [.text "No content returned"] := by
  rw [call_tool, if_neg (by simp [he])]
  have hnone : ∀ item ∈ jsonItems ((jsonGet ((jsonGet resp "result").getD (.obj []))
      "content").getD (.arr [])), mapContentItem item = none := by
    intro item hitem
    have hr := hall item hitem
    rw [mapContentItem]
    rw [recognizedType] at hr
    cases hjt : jsonGet item "type" with
    | none => rfl
    | some t =>
        cases t with
        | str s =>
            rw [hjt] at hr
            simp only at hr
            simp only
            rw [if_neg (by simp at hr; exact fun h => by simp [h] at hr),
              if_neg (by simp at hr; exact fun h => by simp [h] at hr),
              if_neg (by simp at hr; exact fun h => by simp [h] at hr)]
        | null => rfl
        | bool b => rfl
        | num n => rfl
        | arr xs => rfl
        | obj kvs => rfl
  have hfm : (jsonItems ((jsonGet ((jsonGet resp "result").getD (.obj []))
      "content").getD (.arr []))).filterMap mapContentItem = [] := by
    rw [List.filterMap_eq_nil_iff]
    exact hnone
  simp only
  rw [hfm]
  rfl

/-- Witness for C10: a success response whose two content items carry
the unrecognized types `audio` and `video`. -/
theorem call_tool_no_content_witness :
    hasError (Json.obj [("result".data, .obj [("content".data, .arr
        [.obj [("type".data, .jstr "audio")], .obj [("type".data, .jstr "video")]])])]) = false ∧
    call_tool (Json.obj [("result".data, .obj [("content".data, .arr
        [.obj [("type".data, .jstr "audio")], .obj [("type".data, .jstr "video")]])])])
      = [.text "No content returned"] :=
  ⟨by decide, call_tool_no_content _ (by decide) (by decide)⟩

/-! ## The inbound stdin loop (C4)

`stdin_reader` runs `while True` inside one `try`: each `readline`
result is decoded, stripped, skipped if blank, validated as a JSON-RPC
document and pushed into the inbound stream; EOF (`b""`) breaks the
loop cleanly.  The `try` wraps the WHOLE loop, so an exception raised
by `JSONRPCMessage.model_validate_json` leaves the loop, is logged by
the `except` clause, and the `finally` closes the inbound stream.
Standard input is modelled as the list of lines before EOF. -/

/-- Python `str.strip()` whitespace (the ASCII subset suffices for the
line-delimited JSON-RPC protocol). -/
def isSpaceCh (c : Char) : Bool :=
  c = ' ' || c = '\t' || c = '\n' || c = '\r' || c.toNat = 11 || c.toNat = 12

/-- `line.strip()`. -/
def strip (l : List Char) : List Char :=
  ((l.dropWhile isSpaceCh).reverse.dropWhile isSpaceCh).reverse

/-- `JSONRPCMessage.model_validate_json`: modelled as — the text parses
as one JSON document carrying a `jsonrpc` member (the pydantic model
validates more structure; only success versus exception matters here,
and an invalid JSON text always raises). -/
def validateJsonRpc (l : List Char) : Option Json :=
  match loads l with
  | some j => if (jsonGet j "jsonrpc").isSome then some j else none
  | none => none

/-- What `stdin_reader` did: the messages pushed onto the inbound
stream in order, whether the `except` clause fired (and logged), and
whether the `finally` closed the inbound stream (it always does). -/
structure ReaderResult where
  sent : List Json
  errorLogged : Bool
  closed : Bool
deriving DecidableEq, Repr

/-- The `while True` loop body over the remaining stdin lines. -/
def readLoop : List (List Char) → List Json × Bool
  | [] => ([], false)
  | l :: rest =>
      let t := strip l
      if t.isEmpty then readLoop rest
      else
        match validateJsonRpc t with
        | some m => ((readLoop rest).1.cons m, (readLoop rest).2)
        | none => ([], true)

/-- `stdin_reader` over the stdin lines: the loop runs under the `try`;
the `finally` always closes the inbound stream. -/
def stdin_reader (lines : List (List Char)) : ReaderResult :=
  ⟨(readLoop lines).1, (readLoop lines).2, true⟩

/-- The messages the loop would push for a prefix of blank or valid
lines. -/
def parsedOf (lines : List (List Char)) : List Json :=
  lines.filterMap fun l =>
    if (strip l).isEmpty then none else validateJsonRpc (strip l)

/-- A line the loop survives: blank after stripping, or valid. -/
def okLine (l : List Char) : Prop :=
  (strip l).isEmpty = true ∨ (validateJsonRpc (strip l)).isSome = true

/-- C4 counterexample: with stdin carrying a malformed line followed by
a valid request, the reader loop terminates at the malformed line — the
error is logged and the inbound stream closed, but the subsequent valid
line is never parsed or pushed, and the bridge (its inbound stream now
closed) shuts down rather than continuing. -/
theorem c4_counterexample :
    validateJsonRpc (strip "\x7b\"jsonrpc\": \"2.0\", \"method\": \"ping\"\x7d".data)
        = some (.obj [("jsonrpc".data, .jstr "2.0"), ("method".data, .jstr "ping")]) ∧
    stdin_reader ["not json".data, "\x7b\"jsonrpc\": \"2.0\", \"method\": \"ping\"\x7d".data]
        = ⟨[], true, true⟩ := by
  refine ⟨by decide, by decide⟩

/-- C4 amended: a non-blank stdin line that is not a valid JSON-RPC
document raises out of the reading loop: the failure IS logged and the
offending line dropped, but the loop does not continue — it terminates,
the inbound stream is closed (triggering shutdown), and no later line,
valid or not, is processed; only the messages of the blank-or-valid
prefix before the malformed line are pushed. -/
theorem parsedOf_cons_blank (l : List Char) (ls : List (List Char))
    (hblank : (strip l).isEmpty = true) : parsedOf (l :: ls) = parsedOf ls := by
  rw [parsedOf, List.filterMap_cons]
  simp only [hblank, if_true]
  rfl

theorem parsedOf_cons_valid (l : List Char) (ls : List (List Char)) (m : Json)
    (hne : (strip l).isEmpty = false) (hm : validateJsonRpc (strip l) = some m) :
    parsedOf (l :: ls) = m :: parsedOf ls := by
  rw [parsedOf, List.filterMap_cons]
  simp only [hne, Bool.false_eq_true, if_false, hm]
  rfl

theorem stdin_reader_stops_at_bad_line (pre : List (List Char)) (bad : List Char)
    (rest : List (List Char))
    (hpre : ∀ l ∈ pre, okLine l)
    (hbad1 : (strip bad).isEmpty = false)
    (hbad2 : validateJsonRpc (strip bad) = none) :
    stdin_reader (pre ++ bad :: rest) = ⟨parsedOf pre, true, true⟩ := by
  rw [stdin_reader]
  have key : readLoop (pre ++ bad :: rest) = (parsedOf pre, true) := by
    induction pre with
    | nil =>
        rw [List.nil_append, readLoop]
        simp only [hbad1, Bool.false_eq_true, if_false, hbad2]
        rfl
    | cons l pre ih =>
        rw [List.cons_append, readLoop]
        have hok := hpre l (List.mem_cons_self l pre)
        have ih' := ih (fun x hx => hpre x (List.mem_cons_of_mem l hx))
        rcases hok with hblank | hvalid
        · simp only [hblank, if_true]
          rw [ih', parsedOf_cons_blank l pre hblank]
        · obtain ⟨m, hm⟩ := Option.isSome_iff_exists.mp hvalid
          have hne : (strip l).isEmpty = false := by
            by_contra hc
            simp only [Bool.not_eq_false] at hc
            have h0 : strip l = [] := by simpa using hc
            rw [validateJsonRpc, h0] at hm
            simp [loads, parseValue] at hm
          simp only [hne, Bool.false_eq_true, if_false, hm]
          rw [ih', parsedOf_cons_valid l pre m hne hm]
  rw [key]

/-- Witness for the amended C4: one valid line, one blank line, then
the malformed line, then an unreachable valid line. -/
theorem stdin_reader_stops_at_bad_line_witness :
    stdin_reader ["\x7b\"jsonrpc\": \"2.0\", \"method\": \"a\"\x7d".data, "  ".data,
        "not json".data, "\x7b\"jsonrpc\": \"2.0\", \"method\": \"b\"\x7d".data]
      = ⟨parsedOf ["\x7b\"jsonrpc\": \"2.0\", \"method\": \"a\"\x7d".data, "  ".data], true, true⟩ :=
  stdin_reader_stops_at_bad_line
    ["\x7b\"jsonrpc\": \"2.0\", \"method\": \"a\"\x7d".data, "  ".data] "not json".data
    ["\x7b\"jsonrpc\": \"2.0\", \"method\": \"b\"\x7d".data]
    (by
      intro l hl
      rcases List.mem_cons.mp hl with rfl | hl2
      · exact Or.inr (by decide)
      · rcases List.mem_cons.mp hl2 with rfl | hl3
        · exact Or.inl (by decide)
        · exact absurd hl3 (List.not_mem_nil l))
    (by decide) (by decide)

/-! ## The orchestrator: `run_server` (C9)

`run_server` creates the client and server, opens the two memory
streams, and runs a task group with `stdin_reader` and `stdout_writer`
alongside `server.run`; `stdin_reader`'s `finally` closes the inbound
stream, `server.run` (an external collaborator) consumes the inbound
queue and returns once it is exhausted and closed, the cancel scope
then cancels the remaining activities, and the `finally` of
`run_server` calls `unity_client.disconnect()` — once, on every exit
path.  Handler execution is abstracted by the number of `disconnect()`
calls each dispatched message causes inside `send_request`. -/

inductive OrchEvent where
  | stdinEofLogged : OrchEvent
  | readerErrorLogged : OrchEvent
  | inboundClosed : OrchEvent
  | dispatchReturned : OrchEvent
  | activitiesCancelled : OrchEvent
  | disconnectCalled : OrchEvent
deriving DecidableEq, Repr

/-- The ordered observable events of one `run_server` run, paired with
the total number of `disconnect()` calls on the client (those performed
inside handlers' `send_request` calls, plus the one of the `finally`). -/
def run_server (lines : List (List Char)) (handlerDisconnects : Json → Nat) :
    List OrchEvent × Nat :=
  let r := stdin_reader lines
  ((if r.errorLogged then [OrchEvent.readerErrorLogged] else [OrchEvent.stdinEofLogged])
      ++ [OrchEvent.inboundClosed, OrchEvent.dispatchReturned, OrchEvent.activitiesCancelled,
          OrchEvent.disconnectCalled],
    (r.sent.map handlerDisconnects).sum + 1)

/-- C9: when the local peer closes standard input with no request ever
sent (no lines), the bridge reaches `Stopped` — EOF is logged, the
inbound stream closes, the dispatch loop returns, the still-running
activities are cancelled — and `disconnect()` is called on the backend
connection exactly once, as the final event before the process exits. -/
theorem run_server_eof_disconnects_once (handlerDisconnects : Json → Nat) :
    run_server [] handlerDisconnects
        = ([.stdinEofLogged, .inboundClosed, .dispatchReturned, .activitiesCancelled,
            .disconnectCalled], 1) ∧
    (run_server [] handlerDisconnects).1.count .disconnectCalled = 1 ∧
    (run_server [] handlerDisconnects).1.getLast? = some .disconnectCalled := by
  refine ⟨rfl, rfl, rfl⟩

/-! ## Concurrency of two `send_request` calls (C2)

`self._lock` is acquired INSIDE the `for` loop (`async with self._lock`
at line 104), so each call holds it for one iteration's connect-or-reuse,
write and read, and releases it before the inter-retry sleep.  Two
concurrent calls are modelled by their action traces and an arbitrary
interleaving of them that respects the lock automaton. -/

/-- The two concurrent callers. -/
inductive Tid where
  | a : Tid
  | b : Tid
deriving DecidableEq, Repr

/-- `s` interleaves the two callers' action lists, preserving each
caller's program order. -/
def isInterleaving : List (Tid × Action) → List Action → List Action → Bool
  | [], as, bs => as.isEmpty && bs.isEmpty
  | (.a, act) :: s, as, bs =>
      match as with
      | a0 :: as' => act == a0 && isInterleaving s as' bs
      | [] => false
  | (.b, act) :: s, as, bs =>
      match bs with
      | b0 :: bs' => act == b0 && isInterleaving s as bs'
      | [] => false

/-- One step of the lock automaton: `acquire` requires the lock free,
`release` requires the releasing caller to hold it; every other action
leaves the holder unchanged.  `none` means the schedule violates the
lock's semantics (such schedules cannot happen). -/
def lockStep (st : Option Tid) (e : Tid × Action) : Option (Option Tid) :=
  match e.2 with
  | .acquire =>
      match st with
      | none => some (some e.1)
      | some _ => none
  | .release =>
      match st with
      | some h => if h = e.1 then some none else none
      | none => none
  | _ => some st

def lockOkFrom : Option Tid → List (Tid × Action) → Bool
  | _, [] => true
  | st, e :: s =>
      match lockStep st e with
      | some st' => lockOkFrom st' s
      | none => false

/-- The schedule respects the mutual-exclusion lock. -/
def lockOk (s : List (Tid × Action)) : Bool := lockOkFrom none s

/-- Every socket write and every socket read in the schedule is
performed by the caller currently holding the lock. -/
def wireGuardedFrom : Option Tid → List (Tid × Action) → Bool
  | _, [] => true
  | st, e :: s =>
      (if e.2 = Action.writeAct ∨ e.2 = Action.readAct then st == some e.1 else true) &&
        (match lockStep st e with
         | some st' => wireGuardedFrom st' s
         | none => false)

def wireGuarded (s : List (Tid × Action)) : Bool := wireGuardedFrom none s

/-- Scan one caller's program, tracking whether it is inside an
acquire/release section; `some final` when acquires and releases are
properly bracketed and every wire action sits inside a section. -/
def wilScan : Bool → List Action → Option Bool
  | inL, [] => some inL
  | inL, act :: s =>
      match act with
      | .acquire => if inL then none else wilScan true s
      | .release => if inL then wilScan false s else none
      | .writeAct => if inL then wilScan inL s else none
      | .readAct => if inL then wilScan inL s else none
      | _ => wilScan inL s

theorem wilScan_append (p s : List Action) :
    ∀ inL m, wilScan inL p = some m → wilScan inL (p ++ s) = wilScan m s := by
  induction p with
  | nil =>
      intro inL m h
      simp only [wilScan] at h
      cases h
      rfl
  | cons act p ih =>
      intro inL m h
      rw [List.cons_append]
      cases act with
      | acquire =>
          rw [wilScan] at h ⊢
          by_cases hl : inL
          · rw [if_pos hl] at h; exact absurd h (by simp)
          · rw [if_neg hl] at h ⊢; exact ih _ _ h
      | release =>
          rw [wilScan] at h ⊢
          by_cases hl : inL
          · rw [if_pos hl] at h ⊢; exact ih _ _ h
          · rw [if_neg hl] at h; exact absurd h (by simp)
      | writeAct =>
          rw [wilScan] at h ⊢
          by_cases hl : inL
          · rw [if_pos hl] at h ⊢; exact ih _ _ h
          · rw [if_neg hl] at h; exact absurd h (by simp)
      | readAct =>
          rw [wilScan] at h ⊢
          by_cases hl : inL
          · rw [if_pos hl] at h ⊢; exact ih _ _ h
          · rw [if_neg hl] at h; exact absurd h (by simp)
      | connectAct => exact ih _ _ h
      | sleepAct => exact ih _ _ h
      | ret => exact ih _ _ h

/-- Every trace `send_request` produces is properly bracketed, with its
wire actions inside lock sections, starting and ending unlocked. -/
theorem sendLoop_wilScan (req : Json) (env : Nat → IterEnv) (rc : Nat) :
    ∀ rem connected lastErr,
      wilScan false (sendLoop req env rc rem connected lastErr).actions = some false := by
  intro rem
  induction rem with
  | zero => intro connected lastErr; rfl
  | succ rem ih =>
      intro connected lastErr
      cases connected with
      | true =>
          cases hx : runExchange (env (rc - (rem + 1))).exch with
          | success resp =>
              rw [sendLoop_reuse_success req env rc rem lastErr resp hx]
              cases (env (rc - (rem + 1))).exch <;> rfl
          | exc e =>
              cases ht : isTransportExc e with
              | true =>
                  rw [sendLoop_reuse_exc_transport req env rc rem lastErr e hx ht]
                  show wilScan false (Action.acquire :: [] ++ exchActs (env (rc - (rem + 1))).exch
                      ++ [Action.release] ++ (if 1 ≤ rem then [Action.sleepAct] else [])
                      ++ (sendLoop req env rc rem false (some (excMsg e))).actions) = some false
                  have hpre : wilScan false (Action.acquire :: []
                      ++ exchActs (env (rc - (rem + 1))).exch ++ [Action.release]
                      ++ (if 1 ≤ rem then [Action.sleepAct] else [])) = some false := by
                    cases (env (rc - (rem + 1))).exch <;> by_cases h1 : 1 ≤ rem <;>
                      simp [h1, exchActs, wilScan]
                  rw [show Action.acquire :: [] ++ exchActs (env (rc - (rem + 1))).exch
                      ++ [Action.release] ++ (if 1 ≤ rem then [Action.sleepAct] else [])
                      ++ (sendLoop req env rc rem false (some (excMsg e))).actions
                    = (Action.acquire :: [] ++ exchActs (env (rc - (rem + 1))).exch
                      ++ [Action.release] ++ (if 1 ≤ rem then [Action.sleepAct] else []))
                      ++ (sendLoop req env rc rem false (some (excMsg e))).actions by
                    simp [List.append_assoc]]
                  rw [wilScan_append _ _ false false hpre]
                  exact ih false (some (excMsg e))
              | false =>
                  rw [sendLoop_reuse_exc_other req env rc rem lastErr e hx ht]
                  cases (env (rc - (rem + 1))).exch <;> rfl
      | false =>
          cases hc : (connect (env (rc - (rem + 1))).dials rc).success with
          | false =>
              rw [sendLoop_connect_fail req env rc rem lastErr hc]
              show wilScan false ((Action.acquire :: [Action.connectAct] ++ [Action.release]
                  ++ (if 1 ≤ rem then [Action.sleepAct] else []))
                  ++ (sendLoop req env rc rem false (some "Failed to connect")).actions)
                = some false
              have hpre : wilScan false (Action.acquire :: [Action.connectAct]
                  ++ [Action.release] ++ (if 1 ≤ rem then [Action.sleepAct] else []))
                  = some false := by
                by_cases h1 : 1 ≤ rem <;> simp [h1, wilScan]
              rw [wilScan_append _ _ false false hpre]
              exact ih false (some "Failed to connect")
          | true =>
              cases hx : runExchange (env (rc - (rem + 1))).exch with
              | success resp =>
                  rw [sendLoop_connOk_success req env rc rem lastErr resp hc hx]
                  cases (env (rc - (rem + 1))).exch <;> rfl
              | exc e =>
                  cases ht : isTransportExc e with
                  | true =>
                      rw [sendLoop_connOk_exc_transport req env rc rem lastErr e hc hx ht]
                      show wilScan false (Action.acquire :: Action.connectAct
                          :: exchActs (env (rc - (rem + 1))).exch ++ [Action.release]
                          ++ (if 1 ≤ rem then [Action.sleepAct] else [])
                          ++ (sendLoop req env rc rem false (some (excMsg e))).actions)
                        = some false
                      have hpre : wilScan false (Action.acquire :: Action.connectAct
                          :: exchActs (env (rc - (rem + 1))).exch ++ [Action.release]
                          ++ (if 1 ≤ rem then [Action.sleepAct] else [])) = some false := by
                        cases (env (rc - (rem + 1))).exch <;> by_cases h1 : 1 ≤ rem <;>
                          simp [h1, exchActs, wilScan]
                      rw [show Action.acquire :: Action.connectAct
                          :: exchActs (env (rc - (rem + 1))).exch ++ [Action.release]
                          ++ (if 1 ≤ rem then [Action.sleepAct] else [])
                          ++ (sendLoop req env rc rem false (some (excMsg e))).actions
                        = (Action.acquire :: Action.connectAct
                          :: exchActs (env (rc - (rem + 1))).exch ++ [Action.release]
                          ++ (if 1 ≤ rem then [Action.sleepAct] else []))
                          ++ (sendLoop req env rc rem false (some (excMsg e))).actions by
                        simp [List.append_assoc]]
                      rw [wilScan_append _ _ false false hpre]
                      exact ih false (some (excMsg e))
                  | false =>
                      rw [sendLoop_connOk_exc_other req env rc rem lastErr e hc hx ht]
                      cases (env (rc - (rem + 1))).exch <;> rfl

/-- The heart of the mutual-exclusion argument: in any lock-respecting
interleaving of two callers whose programs are properly bracketed with
all wire actions inside lock sections, every socket write and read is
performed while its caller holds the lock.  The invariant carried
through the induction: a caller's program position is inside a lock
section exactly when that caller is the current holder. -/
theorem interleaving_wire_guarded :
    ∀ (s : List (Tid × Action)) (st : Option Tid) (as bs : List Action) (ia ib : Bool),
      isInterleaving s as bs = true →
      lockOkFrom st s = true →
      (wilScan ia as).isSome = true →
      (wilScan ib bs).isSome = true →
      (ia = true ↔ st = some Tid.a) →
      (ib = true ↔ st = some Tid.b) →
      wireGuardedFrom st s = true := by
  intro s
  induction s with
  | nil => intro st as bs ia ib _ _ _ _ _ _; rfl
  | cons e s ih =>
      obtain ⟨t, act⟩ := e
      intro st as bs ia ib hint hlock hwa hwb hia hib
      cases t with
      | a =>
          cases as with
          | nil => rw [isInterleaving] at hint; exact absurd hint (by simp)
          | cons a0 as' =>
              rw [isInterleaving] at hint
              simp only [Bool.and_eq_true, beq_iff_eq] at hint
              obtain ⟨rfl, hint'⟩ := hint
              cases act with
              | acquire =>
                  cases hiav : ia with
                  | true =>
                      rw [hiav] at hwa
                      simp [wilScan] at hwa
                  | false =>
                      rw [hiav] at hwa
                      have hwa' : (wilScan true as').isSome = true := by
                        simpa [wilScan] using hwa
                      cases st with
                      | some h =>
                          exfalso
                          rw [lockOkFrom] at hlock
                          simp [lockStep] at hlock
                      | none =>
                          have hib' : ib = false := by
                            cases hibv : ib
                            · rfl
                            · exact absurd (hib.mp hibv) (by simp)
                          rw [wireGuardedFrom]
                          simp only [lockStep]
                          simp only [if_neg (by simp : ¬(Action.acquire = Action.writeAct
                            ∨ Action.acquire = Action.readAct)), Bool.true_and]
                          exact ih (some Tid.a) as' bs true ib hint'
                            (by simpa [lockOkFrom, lockStep] using hlock) hwa' hwb
                            (by simp) (by simp [hib'])
              | release =>
                  cases hiav : ia with
                  | false =>
                      rw [hiav] at hwa
                      simp [wilScan] at hwa
                  | true =>
                      rw [hiav] at hwa
                      have hwa' : (wilScan false as').isSome = true := by
                        simpa [wilScan] using hwa
                      have hst : st = some Tid.a := hia.mp hiav
                      subst hst
                      have hib' : ib = false := by
                        cases hibv : ib
                        · rfl
                        · exact absurd (hib.mp hibv) (by simp)
                      rw [wireGuardedFrom]
                      simp only [lockStep]
                      simp only [if_neg (by simp : ¬(Action.release = Action.writeAct
                        ∨ Action.release = Action.readAct)), Bool.true_and]
                      exact ih none as' bs false ib hint'
                        (by simpa [lockOkFrom, lockStep] using hlock) hwa' hwb
                        (by simp) (by simp [hib'])
              | writeAct =>
                  cases hiav : ia with
                  | false =>
                      rw [hiav] at hwa
                      simp [wilScan] at hwa
                  | true =>
                      rw [hiav] at hwa
                      have hwa' : (wilScan true as').isSome = true := by
                        simpa [wilScan] using hwa
                      have hst : st = some Tid.a := hia.mp hiav
                      subst hst
                      rw [wireGuardedFrom]
                      simp only [lockStep]
                      simp only [Bool.and_eq_true]
                      refine ⟨by simp, ?_⟩
                      exact ih (some Tid.a) as' bs true ib hint'
                        (by simpa [lockOkFrom, lockStep] using hlock) hwa' hwb (by simp) hib
              | readAct =>
                  cases hiav : ia with
                  | false =>
                      rw [hiav] at hwa
                      simp [wilScan] at hwa
                  | true =>
                      rw [hiav] at hwa
                      have hwa' : (wilScan true as').isSome = true := by
                        simpa [wilScan] using hwa
                      have hst : st = some Tid.a := hia.mp hiav
                      subst hst
                      rw [wireGuardedFrom]
                      simp only [lockStep]
                      simp only [Bool.and_eq_true]
                      refine ⟨by simp, ?_⟩
                      exact ih (some Tid.a) as' bs true ib hint'
                        (by simpa [lockOkFrom, lockStep] using hlock) hwa' hwb (by simp) hib
              | connectAct =>
                  have hwa' : (wilScan ia as').isSome = true := hwa
                  rw [wireGuardedFrom]
                  simp only [lockStep]
                  simp only [if_neg (by simp : ¬(Action.connectAct = Action.writeAct
                    ∨ Action.connectAct = Action.readAct)), Bool.true_and]
                  exact ih st as' bs ia ib hint'
                    (by simpa [lockOkFrom, lockStep] using hlock) hwa' hwb hia hib
              | sleepAct =>
                  have hwa' : (wilScan ia as').isSome = true := hwa
                  rw [wireGuardedFrom]
                  simp only [lockStep]
                  simp only [if_neg (by simp : ¬(Action.sleepAct = Action.writeAct
                    ∨ Action.sleepAct = Action.readAct)), Bool.true_and]
                  exact ih st as' bs ia ib hint'
                    (by simpa [lockOkFrom, lockStep] using hlock) hwa' hwb hia hib
              | ret =>
                  have hwa' : (wilScan ia as').isSome = true := hwa
                  rw [wireGuardedFrom]
                  simp only [lockStep]
                  simp only [if_neg (by simp : ¬(Action.ret = Action.writeAct
                    ∨ Action.ret = Action.readAct)), Bool.true_and]
                  exact ih st as' bs ia ib hint'
                    (by simpa [lockOkFrom, lockStep] using hlock) hwa' hwb hia hib
      | b =>
          cases bs with
          | nil => rw [isInterleaving] at hint; exact absurd hint (by simp)
          | cons b0 bs' =>
              rw [isInterleaving] at hint
              simp only [Bool.and_eq_true, beq_iff_eq] at hint
              obtain ⟨rfl, hint'⟩ := hint
              cases act with
              | acquire =>
                  cases hibv : ib with
                  | true =>
                      rw [hibv] at hwb
                      simp [wilScan] at hwb
                  | false =>
                      rw [hibv] at hwb
                      have hwb' : (wilScan true bs').isSome = true := by
                        simpa [wilScan] using hwb
                      cases st with
                      | some h =>
                          exfalso
                          rw [lockOkFrom] at hlock
                          simp [lockStep] at hlock
                      | none =>
                          have hia' : ia = false := by
                            cases hiav : ia
                            · rfl
                            · exact absurd (hia.mp hiav) (by simp)
                          rw [wireGuardedFrom]
                          simp only [lockStep]
                          simp only [if_neg (by simp : ¬(Action.acquire = Action.writeAct
                            ∨ Action.acquire = Action.readAct)), Bool.true_and]
                          exact ih (some Tid.b) as bs' ia true hint'
                            (by simpa [lockOkFrom, lockStep] using hlock) hwa hwb'
                            (by simp [hia']) (by simp)
              | release =>
                  cases hibv : ib with
                  | false =>
                      rw [hibv] at hwb
                      simp [wilScan] at hwb
                  | true =>
                      rw [hibv] at hwb
                      have hwb' : (wilScan false bs').isSome = true := by
                        simpa [wilScan] using hwb
                      have hst : st = some Tid.b := hib.mp hibv
                      subst hst
                      have hia' : ia = false := by
                        cases hiav : ia
                        · rfl
                        · exact absurd (hia.mp hiav) (by simp)
                      rw [wireGuardedFrom]
                      simp only [lockStep]
                      simp only [if_neg (by simp : ¬(Action.release = Action.writeAct
                        ∨ Action.release = Action.readAct)), Bool.true_and]
                      exact ih none as bs' ia false hint'
                        (by simpa [lockOkFrom, lockStep] using hlock) hwa hwb'
                        (by simp [hia']) (by simp)
              | writeAct =>
                  cases hibv : ib with
                  | false =>
                      rw [hibv] at hwb
                      simp [wilScan] at hwb
                  | true =>
                      rw [hibv] at hwb
                      have hwb' : (wilScan true bs').isSome = true := by
                        simpa [wilScan] using hwb
                      have hst : st = some Tid.b := hib.mp hibv
                      subst hst
                      rw [wireGuardedFrom]
                      simp only [lockStep]
                      simp only [Bool.and_eq_true]
                      refine ⟨by simp, ?_⟩
                      exact ih (some Tid.b) as bs' ia true hint'
                        (by simpa [lockOkFrom, lockStep] using hlock) hwa hwb' hia (by simp)
              | readAct =>
                  cases hibv : ib with
                  | false =>
                      rw [hibv] at hwb
                      simp [wilScan] at hwb
                  | true =>
                      rw [hibv] at hwb
                      have hwb' : (wilScan true bs').isSome = true := by
                        simpa [wilScan] using hwb
                      have hst : st = some Tid.b := hib.mp hibv
                      subst hst
                      rw [wireGuardedFrom]
                      simp only [lockStep]
                      simp only [Bool.and_eq_true]
                      refine ⟨by simp, ?_⟩
                      exact ih (some Tid.b) as bs' ia true hint'
                        (by simpa [lockOkFrom, lockStep] using hlock) hwa hwb' hia (by simp)
              | connectAct =>
                  have hwb' : (wilScan ib bs').isSome = true := hwb
                  rw [wireGuardedFrom]
                  simp only [lockStep]
                  simp only [if_neg (by simp : ¬(Action.connectAct = Action.writeAct
                    ∨ Action.connectAct = Action.readAct)), Bool.true_and]
                  exact ih st as bs' ia ib hint'
                    (by simpa [lockOkFrom, lockStep] using hlock) hwa hwb' hia hib
              | sleepAct =>
                  have hwb' : (wilScan ib bs').isSome = true := hwb
                  rw [wireGuardedFrom]
                  simp only [lockStep]
                  simp only [if_neg (by simp : ¬(Action.sleepAct = Action.writeAct
                    ∨ Action.sleepAct = Action.readAct)), Bool.true_and]
                  exact ih st as bs' ia ib hint'
                    (by simpa [lockOkFrom, lockStep] using hlock) hwa hwb' hia hib
              | ret =>
                  have hwb' : (wilScan ib bs').isSome = true := hwb
                  rw [wireGuardedFrom]
                  simp only [lockStep]
                  simp only [if_neg (by simp : ¬(Action.ret = Action.writeAct
                    ∨ Action.ret = Action.readAct)), Bool.true_and]
                  exact ih st as bs' ia ib hint'
                    (by simpa [lockOkFrom, lockStep] using hlock) hwa hwb' hia hib

/-- A successful backend reply used by the C2 scenario. -/
def c2resp : Json :=
  .obj [("jsonrpc".data, .jstr "2.0"), ("id".data, .jstr "x"), ("result".data, .obj [])]

/-- Caller A's environment: its first exchange is reset (a transport
error, so A disconnects, releases the lock and sleeps before retrying);
its second iteration reconnects and succeeds. -/
def c2envA : Nat → IterEnv := fun i =>
  if i = 0 then ⟨fun _ => .err "refused", .raiseExc (.connectionReset "reset")⟩
  else ⟨fun _ => .ok, .readBytes (encode c2resp)⟩

/-- Caller B's environment: one clean exchange. -/
def c2envB : Nat → IterEnv := fun _ => ⟨fun _ => .ok, .readBytes (encode c2resp)⟩

def c2reqA : Json := .obj [("id".data, .jstr "a")]

def c2reqB : Json := .obj [("id".data, .jstr "b")]

/-- A lock-respecting schedule in which caller B's entire round trip
runs during caller A's inter-retry sleep. -/
def c2sched : List (Tid × Action) :=
  [(.a, .acquire), (.a, .writeAct), (.a, .release),
   (.b, .acquire), (.b, .writeAct), (.b, .readAct), (.b, .release), (.b, .ret),
   (.a, .sleepAct), (.a, .acquire), (.a, .connectAct), (.a, .writeAct), (.a, .readAct),
   (.a, .release), (.a, .ret)]

/-- Index of the first occurrence of an event in a schedule. -/
def firstIdxOf (e : Tid × Action) (s : List (Tid × Action)) : Option Nat :=
  s.findIdx? (fun x => x == e)

/-- C2 counterexample: the lock is acquired INSIDE the retry loop
(`async with self._lock` at line 104), so it is released between retry
iterations: caller A's trace acquires the lock twice within one
`send_request` call, and the exhibited schedule — a valid interleaving
of the two calls' traces that respects the lock — has caller B's socket
write (index 4) strictly before caller A's return (index 14), while A
is sleeping between retries.  The second call's write therefore CAN
begin before the first call's full round trip completes, contradicting
the claimed whole-call lock scope. -/
theorem c2_counterexample :
    isInterleaving c2sched (send_request c2reqA c2envA 2 true).actions
        (send_request c2reqB c2envB 1 true).actions = true ∧
    lockOk c2sched = true ∧
    (send_request c2reqA c2envA 2 true).actions.count Action.acquire = 2 ∧
    ((firstIdxOf (.b, .writeAct) c2sched).getD 99
      < (firstIdxOf (.a, .ret) c2sched).getD 0) := by
  refine ⟨by decide, by decide, by decide, by decide⟩

/-- C2 amended: the lock is scoped to one retry iteration, not to the
whole call — it guards connect-or-reuse, the write and the read of each
iteration and is released before the inter-retry sleep, so a second
call's write MAY begin while the first call is between retries.  What
does hold: in every lock-respecting interleaving of two `send_request`
calls, every socket write and read is performed while its caller holds
the lock, so the two calls' bytes never interleave within a framed
exchange (each write-read pair is atomic on the wire). -/
theorem send_request_exchanges_mutually_excluded
    (reqA reqB : Json) (envA envB : Nat → IterEnv) (rcA rcB : Nat)
    (cA cB : Bool) (s : List (Tid × Action))
    (hint : isInterleaving s (send_request reqA envA rcA cA).actions
        (send_request reqB envB rcB cB).actions = true)
    (hlock : lockOk s = true) :
    wireGuarded s = true := by
  have ha := sendLoop_wilScan reqA envA rcA rcA cA none
  have hb := sendLoop_wilScan reqB envB rcB rcB cB none
  exact interleaving_wire_guarded s none _ _ false false hint hlock
    (by rw [send_request, ha]; rfl) (by rw [send_request, hb]; rfl)
    (by simp) (by simp)

/-- Witness for the amended C2 at the schedule of the counterexample:
that schedule is lock-valid, and indeed every wire action in it is
performed by the lock holder. -/
theorem send_request_exchanges_mutually_excluded_witness :
    wireGuarded c2sched = true :=
  send_request_exchanges_mutually_excluded c2reqA c2reqB c2envA c2envB 2 1 true true
    c2sched (by decide) (by decide)

end Bridge
